import Mathlib

/-!
# Allegro compatibility layer (`engines/ags/lib/allegro/gfx.cpp`)

A shallow embedding of the pixel accessors, the blit/sprite routines and the
filled-circle rasteriser of `gfx.cpp`, with the properties of the
specification stated and proved (or refuted) over the embedding.  The room
classification of `engines/glk/comprehend/game_oo.cpp` follows in the namespace
`Glk.Comprehend`.

Conventions of the embedding.

* A C++ `int` is a Lean `Int`; a colour passed to a writer is any `Int` and the
  writer keeps its low 8, 16 or 32 bits, exactly as the stores
  `*((uint8 *)p) = color`, `*((uint16 *)p) = color`, `*((uint32 *)p) = color` do.
  Reading a `uint32` back into an `int` wraps modulo `2^32` (`toInt32`).
* The pixel storage of a surface is a grid of cells, one per pixel:
  `getBasePtr(x, y)` is the cell `(x, y)` and `++destP` moves one cell to the
  right.  The byte layout (pitch, endianness) is not part of `gfx.cpp` and is not
  modelled.
* Fatal `error(...)` calls are `Except.error`.
-/

namespace AGS3

/-! ## Data model -/

/-- Channel layout of a pixel format: the storage width and, per channel, the
number of bits lost with respect to 8 and the shift inside the packed value
(the fields of `Graphics::PixelFormat`). -/
structure PixelFormat where
  bytesPerPixel : Nat
  rLoss : Nat
  gLoss : Nat
  bLoss : Nat
  aLoss : Nat
  rShift : Nat
  gShift : Nat
  bShift : Nat
  aShift : Nat
  deriving DecidableEq

/-- The surface a bitmap draws on (`Graphics::ManagedSurface`): its size, its
format and its pixel cells.  Cell `(x, y)` holds the unsigned value stored at
`getBasePtr(x, y)`. -/
structure ManagedSurface where
  w : Nat
  h : Nat
  format : PixelFormat
  pix : Int → Int → Nat

/-- The Allegro bitmap: the owning surface together with the clip state set up
by the constructor `BITMAP::BITMAP` (`clip(false), ct(0), cl(0), cr(owner->w),
cb(owner->h)`). -/
structure BITMAP where
  owner : ManagedSurface
  clip : Bool
  ct : Int
  cl : Int
  cr : Int
  cb : Int

/-- The constructor `BITMAP::BITMAP(owner)`. -/
def BITMAP.mk_from (owner : ManagedSurface) : BITMAP :=
  { owner := owner, clip := false, ct := 0, cl := 0, cr := owner.w, cb := owner.h }

/-- Width of a bitmap, `BITMAP::w` (the owner's width). -/
def BITMAP.w (bmp : BITMAP) : Nat := bmp.owner.w

/-- Height of a bitmap, `BITMAP::h` (the owner's height). -/
def BITMAP.h (bmp : BITMAP) : Nat := bmp.owner.h

/-- Format of a bitmap, `BITMAP::format` (the owner's format). -/
def BITMAP.format (bmp : BITMAP) : PixelFormat := bmp.owner.format

/-- Equality of results of fallible calls is decidable. -/
instance instDecidableEqExcept {ε α : Type} [DecidableEq ε] [DecidableEq α] :
    DecidableEq (Except ε α) := fun a b =>
  match a, b with
  | .ok x, .ok y =>
    if h : x = y then isTrue (by rw [h]) else isFalse (by intro e; cases e; exact h rfl)
  | .error x, .error y =>
    if h : x = y then isTrue (by rw [h]) else isFalse (by intro e; cases e; exact h rfl)
  | .ok _, .error _ => isFalse (by intro e; cases e)
  | .error _, .ok _ => isFalse (by intro e; cases e)

/-! ## Machine integers -/

/-- The value kept by a store through a `uint8 *`, `uint16 *` or `uint32 *`
(`k` = 1, 2, 4): the low `8 * k` bits of the `int`. -/
def truncTo (k : Nat) (color : Int) : Nat := (color % (256 : Int) ^ k).toNat

/-- Conversion of a `uint32` to `int`: values from `2^31` on wrap to negative. -/
def toInt32 (n : Nat) : Int :=
  if n % 4294967296 < 2147483648 then ((n % 4294967296 : Nat) : Int)
  else ((n % 4294967296 : Nat) : Int) - 4294967296

/-- The unsigned `k`-byte value read at `getBasePtr(x, y)`. -/
def ManagedSurface.load (surf : ManagedSurface) (k : Nat) (x y : Int) : Nat :=
  surf.pix x y % 256 ^ k

/-- The surface after a `k`-byte store of `color` at `getBasePtr(x, y)`. -/
def ManagedSurface.store (surf : ManagedSurface) (k : Nat) (x y : Int) (color : Int) :
    ManagedSurface :=
  { surf with pix := fun px py => if px = x ∧ py = y then truncTo k color else surf.pix px py }

/-- The bitmap with its surface replaced (a draw mutates the owner in place). -/
def BITMAP.withOwner (bmp : BITMAP) (surf : ManagedSurface) : BITMAP :=
  { bmp with owner := surf }

/-! ## Pixel accessors -/

/-- Member function `int BITMAP::getpixel(int x, int y) const`. -/
def BITMAP.getpixel (bmp : BITMAP) (x y : Int) : Int :=
  if x < 0 ∨ y < 0 ∨ x ≥ bmp.w ∨ y ≥ bmp.h then -1
  else if bmp.format.bytesPerPixel = 1 then (bmp.owner.load 1 x y : Int)
  else if bmp.format.bytesPerPixel = 2 then (bmp.owner.load 2 x y : Int)
  else toInt32 (bmp.owner.load 4 x y)

/-- Function `void putpixel(BITMAP *bmp, int x, int y, int color)`: the `switch` on
`bytesPerPixel` stores for 1, 2 and 4 and does nothing otherwise. -/
def putpixel (bmp : BITMAP) (x y : Int) (color : Int) : BITMAP :=
  match bmp.owner.format.bytesPerPixel with
  | 1 => bmp.withOwner (bmp.owner.store 1 x y color)
  | 2 => bmp.withOwner (bmp.owner.store 2 x y color)
  | 4 => bmp.withOwner (bmp.owner.store 4 x y color)
  | _ => bmp

/-- Function `void _putpixel(BITMAP *bmp, int x, int y, int color)`. -/
def _putpixel (bmp : BITMAP) (x y : Int) (color : Int) : BITMAP :=
  bmp.withOwner (bmp.owner.store 1 x y color)

/-- Function `void _putpixel16(BITMAP *bmp, int x, int y, int color)`. -/
def _putpixel16 (bmp : BITMAP) (x y : Int) (color : Int) : BITMAP :=
  bmp.withOwner (bmp.owner.store 2 x y color)

/-- Function `void _putpixel32(BITMAP *bmp, int x, int y, int color)`. -/
def _putpixel32 (bmp : BITMAP) (x y : Int) (color : Int) : BITMAP :=
  bmp.withOwner (bmp.owner.store 4 x y color)

/-- Function `int getpixel(BITMAP *bmp, int x, int y)`: `-1` outside the surface, the
stored value for 1, 2 and 4 bytes per pixel, `error("Unsupported bpp")`
otherwise. -/
def getpixel (bmp : BITMAP) (x y : Int) : Except String Int :=
  if x < 0 ∨ y < 0 ∨ x ≥ bmp.owner.w ∨ y ≥ bmp.owner.h then .ok (-1)
  else
    match bmp.owner.format.bytesPerPixel with
    | 1 => .ok (bmp.owner.load 1 x y : Int)
    | 2 => .ok (bmp.owner.load 2 x y : Int)
    | 4 => .ok (toInt32 (bmp.owner.load 4 x y))
    | _ => .error "Unsupported bpp"

/-- Function `int _getpixel(BITMAP *bmp, int x, int y)`. -/
def _getpixel (bmp : BITMAP) (x y : Int) : Int :=
  if x < 0 ∨ y < 0 ∨ x ≥ bmp.owner.w ∨ y ≥ bmp.owner.h then -1
  else (bmp.owner.load 1 x y : Int)

/-- Function `int _getpixel16(BITMAP *bmp, int x, int y)`. -/
def _getpixel16 (bmp : BITMAP) (x y : Int) : Int :=
  if x < 0 ∨ y < 0 ∨ x ≥ bmp.owner.w ∨ y ≥ bmp.owner.h then -1
  else (bmp.owner.load 2 x y : Int)

/-- Function `int _getpixel32(BITMAP *bmp, int x, int y)`. -/
def _getpixel32 (bmp : BITMAP) (x y : Int) : Int :=
  if x < 0 ∨ y < 0 ∨ x ≥ bmp.owner.w ∨ y ≥ bmp.owner.h then -1
  else toInt32 (bmp.owner.load 4 x y)

/-- A colour is representable on a surface of `k` bytes per pixel: `0..255`,
`0..65535`, or any 32-bit `int`. -/
def representable (k : Nat) (c : Int) : Prop :=
  (k = 1 ∧ 0 ≤ c ∧ c ≤ 255) ∨ (k = 2 ∧ 0 ≤ c ∧ c ≤ 65535) ∨
    (k = 4 ∧ -2147483648 ≤ c ∧ c ≤ 2147483647)

instance (k : Nat) (c : Int) : Decidable (representable k c) := by
  unfold representable; infer_instance

/-- A blank surface of the given size and format, every cell `fill`. -/
def ManagedSurface.blank (w h : Nat) (format : PixelFormat) (fill : Nat) : ManagedSurface :=
  { w := w, h := h, format := format, pix := fun _ _ => fill }

/-- The format `Graphics::PixelFormat::createFormatCLUT8()`. -/
def formatCLUT8 : PixelFormat :=
  { bytesPerPixel := 1, rLoss := 8, gLoss := 8, bLoss := 8, aLoss := 8,
    rShift := 0, gShift := 0, bShift := 0, aShift := 0 }

/-- The format `Graphics::PixelFormat(2, 5, 6, 5, 0, 11, 5, 0, 0)`. -/
def format565 : PixelFormat :=
  { bytesPerPixel := 2, rLoss := 3, gLoss := 2, bLoss := 3, aLoss := 8,
    rShift := 11, gShift := 5, bShift := 0, aShift := 0 }

/-- The format `Graphics::PixelFormat(4, 8, 8, 8, 8, 0, 8, 16, 24)`. -/
def format8888 : PixelFormat :=
  { bytesPerPixel := 4, rLoss := 0, gLoss := 0, bLoss := 0, aLoss := 0,
    rShift := 0, gShift := 8, bShift := 16, aShift := 24 }

/-! ## Formats, transparent colour, surface creation -/

/-- Modelled from the spec: `PixelFormat::RGBToColor` (`graphics/pixelformat.h`
is not among the sources), the conversion from channel values to the packed
colour of the format: every 8-bit channel loses its low `loss` bits and is
shifted to its place, the alpha channel being fully opaque; the result is a
`uint32`. -/
def PixelFormat.RGBToColor (f : PixelFormat) (r g b : Nat) : Nat :=
  ((((255 >>> f.aLoss) <<< f.aShift) ||| ((r >>> f.rLoss) <<< f.rShift) |||
    ((g >>> f.gLoss) <<< f.gShift) ||| ((b >>> f.bLoss) <<< f.bShift))) % 4294967296

/-- Modelled from the spec: `PixelFormat::colorToRGB`, the conversion back from
a packed colour to 8-bit channel values `(r, g, b)`. -/
def PixelFormat.colorToRGB (f : PixelFormat) (color : Nat) : Nat × Nat × Nat :=
  (((color >>> f.rShift) <<< f.rLoss) % 256, ((color >>> f.gShift) <<< f.gLoss) % 256,
    ((color >>> f.bShift) <<< f.bLoss) % 256)

/-- Modelled from the spec: `PixelFormat::colorToARGB`, as `colorToRGB` with the
alpha channel in front, `(a, r, g, b)`. -/
def PixelFormat.colorToARGB (f : PixelFormat) (color : Nat) : Nat × Nat × Nat × Nat :=
  (((color >>> f.aShift) <<< f.aLoss) % 256, f.colorToRGB color)

/-- The macro `TRANSPARENT_COLOR(BITMAP)`: index 0 for paletted surfaces, the
packed bright pink `RGBToColor(255, 0, 255)` otherwise (a `uint32`). -/
def TRANSPARENT_COLOR (f : PixelFormat) : Nat :=
  if f.bytesPerPixel = 1 then 0 else f.RGBToColor 255 0 255

/-- Function `int bitmap_mask_color(BITMAP *bmp)`: the macro's `uint32` returned as `int`. -/
def bitmap_mask_color (bmp : BITMAP) : Int :=
  toInt32 (TRANSPARENT_COLOR bmp.format)

/-- Function `BITMAP *create_bitmap_ex(int color_depth, int width, int height)`: the
format chosen by the `switch`, `error("Invalid color depth")` for any other
depth, and a fresh (zeroed) surface of that format. -/
def create_bitmap_ex (color_depth : Int) (width height : Nat) : Except String BITMAP :=
  if color_depth = 8 then .ok (BITMAP.mk_from (ManagedSurface.blank width height formatCLUT8 0))
  else if color_depth = 16 then
    .ok (BITMAP.mk_from (ManagedSurface.blank width height format565 0))
  else if color_depth = 32 then
    .ok (BITMAP.mk_from (ManagedSurface.blank width height format8888 0))
  else .error "Invalid color depth"

/-! ## Blits -/

/-- A rectangle `Common::Rect(x1, y1, x2, y2)`: `left`, `top` inclusive, `right`,
`bottom` exclusive. -/
structure Rect where
  left : Int
  top : Int
  right : Int
  bottom : Int

/-- A point `Common::Point(x, y)`. -/
structure Point where
  x : Int
  y : Int

/-- Modelled from the spec: `ManagedSurface::blitFrom(src, srcRect, destPos)`
(`graphics/managed_surface.cpp` is not among the sources), the keyed copy of
the specification: a blit "copies the rectangular source region onto the
destination at the given origin", on this path "keyed/composited", and for the
masked blit "source pixels equal to the transparent color for the source's
format are not written to the destination".  Every destination pixel inside the
destination whose source pixel lies in the rectangle and inside the source
takes the source pixel's value, unless that value is the transparent colour of
the source's format. -/
def ManagedSurface.blitFrom (dest src : ManagedSurface) (srcRect : Rect) (destPos : Point) :
    ManagedSurface :=
  { dest with pix := fun px py =>
      if (0 ≤ px ∧ px < dest.w ∧ 0 ≤ py ∧ py < dest.h ∧
          srcRect.left ≤ px - destPos.x + srcRect.left ∧
          px - destPos.x + srcRect.left < srcRect.right ∧
          srcRect.top ≤ py - destPos.y + srcRect.top ∧
          py - destPos.y + srcRect.top < srcRect.bottom ∧
          0 ≤ px - destPos.x + srcRect.left ∧ px - destPos.x + srcRect.left < src.w ∧
          0 ≤ py - destPos.y + srcRect.top ∧ py - destPos.y + srcRect.top < src.h) ∧
          src.pix (px - destPos.x + srcRect.left) (py - destPos.y + srcRect.top)
            ≠ TRANSPARENT_COLOR src.format
      then src.pix (px - destPos.x + srcRect.left) (py - destPos.y + srcRect.top)
      else dest.pix px py }

/-- Function `void masked_blit(src, dest, src_x, src_y, dst_x, dst_y, width, height)`:
after `add_palette_if_needed` (which touches no pixel) the body is the single
call `destS.blitFrom(srcS, Rect(src_x, src_y, src_x + width, src_y + height),
Point(dst_x, dst_y))`; the function hands over no key of its own. -/
def masked_blit (src dest : BITMAP) (src_x src_y dst_x dst_y width height : Int) : BITMAP :=
  dest.withOwner
    (dest.owner.blitFrom src.owner
      { left := src_x, top := src_y, right := src_x + width, bottom := src_y + height }
      { x := dst_x, y := dst_y })

/-- Rounding of a rational to the nearest integer, ties to the even one. -/
def roundHalfEven (q : ℚ) : ℤ :=
  if q - ⌊q⌋ < 1 / 2 then ⌊q⌋
  else if 1 / 2 < q - ⌊q⌋ then ⌊q⌋ + 1
  else if ⌊q⌋ % 2 = 0 then ⌊q⌋ else ⌊q⌋ + 1

/-- The `double` nearest to the exact value `x` (IEEE 754 binary64: 53-bit
significand, round to nearest, ties to even).  The exponent range is not
limited: every value `draw_lit_sprite` computes from byte channels and an
intensity in `0..255` is zero or far inside the normal range. -/
def roundDouble (x : ℚ) : ℚ :=
  if x = 0 then 0
  else (roundHalfEven (x / 2 ^ (Int.log 2 |x| - 52)) : ℚ) * 2 ^ (Int.log 2 |x| - 52)

/-- The cast `static_cast<byte>(d)` for a `double` `d`: the fractional part is discarded
(truncation toward zero) and the low 8 bits are kept. -/
def castToByte (d : ℚ) : Nat := ((if 0 ≤ d then ⌊d⌋ else ⌈d⌉) % 256).toNat

/-- The factor `double alpha = (double)color / 255.0`. -/
def litAlpha (color : Int) : ℚ := roundDouble ((color : ℚ) / 255)

/-- The `double` value of `(src * alpha) + (dest * (1.0 - alpha))`, each of the
four operations rounded to `double`. -/
def litSum (alpha : ℚ) (src dest : Nat) : ℚ :=
  roundDouble (roundDouble ((src : ℚ) * alpha) +
    roundDouble ((dest : ℚ) * roundDouble (1 - alpha)))

/-- One blended channel,
`static_cast<byte>((src * alpha) + (dest * (1.0 - alpha)))`. -/
def litBlend (alpha : ℚ) (src dest : Nat) : Nat :=
  castToByte (litSum alpha src dest)

/-! ## Lit sprite -/

/-- Body of the inner loop of `draw_lit_sprite` once the `x` test has passed, at
destination cell `(xp, yp)`: `srcP` still points at `getBasePtr(0, yCtr)` (the
loop header advances `xCtr`, `xp` and `destP` only), the source pixel is split
with `colorToARGB`, the destination pixel with `colorToRGB`; a source of RGB
`(255, 0, 255)` is skipped, otherwise the blend is stored. -/
def litPixel (bmp sprite : BITMAP) (alpha : ℚ) (yCtr xp yp : Int) (dest : ManagedSurface) :
    ManagedSurface :=
  let src := sprite.format.colorToARGB (sprite.owner.load 4 0 yCtr)
  let dst := bmp.format.colorToRGB (dest.load 4 xp yp)
  if src.2.1 = 255 ∧ src.2.2.1 = 0 ∧ src.2.2.2 = 255 then dest
  else dest.store 4 xp yp
    (bmp.format.RGBToColor (litBlend alpha src.2.1 dst.1) (litBlend alpha src.2.2.1 dst.2.1)
      (litBlend alpha src.2.2.2 dst.2.2) : Nat)

/-- The inner loop `for (xCtr = 0, xp = x; xCtr < sprite->w && xp < bmp->w;
++xCtr, ++xp, ++destP)` from counter `xCtr` on; `fuel` bounds the number of
iterations and is `sprite->w` at the call, so it never runs out before the loop
condition fails.  The body starts with `if (x < 0 || x >= bmp->w) continue;`. -/
def litRow (bmp sprite : BITMAP) (alpha : ℚ) (x yp yCtr : Int) :
    Nat → Int → ManagedSurface → ManagedSurface
  | 0, _, dest => dest
  | fuel + 1, xCtr, dest =>
    if xCtr < sprite.w ∧ x + xCtr < bmp.w then
      litRow bmp sprite alpha x yp yCtr fuel (xCtr + 1)
        (if x < 0 ∨ x ≥ bmp.w then dest else litPixel bmp sprite alpha yCtr (x + xCtr) yp dest)
    else dest

/-- The outer loop `for (yCtr = 0, yp = y; yCtr < sprite->h && yp < bmp->h;
++yCtr, ++yp)` from counter `yCtr` on, with `fuel = sprite->h` at the call; rows
with `yp < 0` are skipped by `continue`. -/
def litRows (bmp sprite : BITMAP) (alpha : ℚ) (x y : Int) :
    Nat → Int → ManagedSurface → ManagedSurface
  | 0, _, dest => dest
  | fuel + 1, yCtr, dest =>
    if yCtr < sprite.h ∧ y + yCtr < bmp.h then
      litRows bmp sprite alpha x y fuel (yCtr + 1)
        (if y + yCtr < 0 then dest
          else litRow bmp sprite alpha x (y + yCtr) yCtr sprite.w 0 dest)
    else dest

/-- Function `void draw_lit_sprite(BITMAP *bmp, const BITMAP *sprite, int x, int y, int
color)`; the `assert` on the two formats is a fatal error.  The sprite is a
bitmap other than the destination. -/
def draw_lit_sprite (bmp sprite : BITMAP) (x y : Int) (color : Int) : Except String BITMAP :=
  if sprite.format.bytesPerPixel = 4 ∧ bmp.format.bytesPerPixel = 4 then
    .ok (bmp.withOwner (litRows bmp sprite (litAlpha color) x y sprite.h 0 bmp.owner))
  else .error "assertion failed: bytesPerPixel == 4"

/-- The destination cell `(px, py)` lies in the overlap of the sprite placed at
`(x, y)` with the bounds of the destination. -/
def inOverlap (bmp sprite : BITMAP) (x y px py : Int) : Prop :=
  x ≤ px ∧ px < x + sprite.w ∧ y ≤ py ∧ py < y + sprite.h ∧
    0 ≤ px ∧ px < bmp.w ∧ 0 ≤ py ∧ py < bmp.h

/-- A 2x1 sprite of 4 bytes per pixel: bright pink `0xFFFF00FF` (transparent) at
`(0, 0)`, opaque black `0xFF000000` at `(1, 0)`. -/
def litSprite : BITMAP :=
  BITMAP.mk_from
    { w := 2, h := 1, format := format8888,
      pix := fun x _ => if x = 0 then 0xFFFF00FF else 0xFF000000 }

/-- A 2x1 sprite of 4 bytes per pixel, both pixels opaque black. -/
def blackSprite : BITMAP := BITMAP.mk_from (ManagedSurface.blank 2 1 format8888 0xFF000000)

/-- A 2x1 destination of 4 bytes per pixel filled with `0xFF1E140A`
(RGB `(10, 20, 30)`). -/
def litDest : BITMAP := BITMAP.mk_from (ManagedSurface.blank 2 1 format8888 0xFF1E140A)

/-! ## Filled circle -/

/-- Modelled from the spec: `ManagedSurface::hLine(x, y, x2, color)`
(`graphics/managed_surface.cpp` is not among the sources), which draws the
horizontal span `[x, x2]` at row `y`: every pixel of the span that lies inside
the surface takes the colour, stored in the width of the format. -/
def ManagedSurface.hLine (surf : ManagedSurface) (x y x2 : Int) (color : Int) : ManagedSurface :=
  { surf with pix := fun px py =>
      if py = y ∧ x ≤ px ∧ px ≤ x2 ∧ 0 ≤ px ∧ px < surf.w ∧ 0 ≤ py ∧ py < surf.h
      then truncTo surf.format.bytesPerPixel color else surf.pix px py }

/-- The local variables of `BITMAP::circlefill`. -/
structure CircleState where
  cx : Int
  cy : Int
  df : Int
  d_e : Int
  d_se : Int
  deriving DecidableEq

/-- The initial values `cx = 0; cy = radius; df = 1 - radius; d_e = 3;
d_se = -2 * radius + 5`. -/
def circleInit (radius : Int) : CircleState :=
  { cx := 0, cy := radius, df := 1 - radius, d_e := 3, d_se := -2 * radius + 5 }

/-- The drawing done by one pass through the body of the `do` loop. -/
def circleBody (surf : ManagedSurface) (x y color : Int) (st : CircleState) : ManagedSurface :=
  let s1 := surf.hLine (x - st.cy) (y - st.cx) (x + st.cy) color
  let s2 := if st.cx ≠ 0 then s1.hLine (x - st.cy) (y + st.cx) (x + st.cy) color else s1
  if st.df < 0 then s2
  else if st.cx ≠ st.cy then
    let s3 := s2.hLine (x - st.cx) (y - st.cy) (x + st.cx) color
    if st.cy ≠ 0 then s3.hLine (x - st.cx) (y + st.cy) (x + st.cx) color else s3
  else s2

/-- The update of the variables by one pass through the body: the two branches
of `if (df < 0)` followed by `cx++`. -/
def circleNext (st : CircleState) : CircleState :=
  if st.df < 0 then
    { cx := st.cx + 1, cy := st.cy, df := st.df + st.d_e, d_e := st.d_e + 2,
      d_se := st.d_se + 2 }
  else
    { cx := st.cx + 1, cy := st.cy - 1, df := st.df + st.d_se, d_e := st.d_e + 2,
      d_se := st.d_se + 4 }

/-- The loop `do { ... } while (cx <= cy)`: the body runs, then the condition is
tested on the updated variables.  `fuel` bounds the number of passes; `none`
means it ran out before the loop ended. -/
def circlefillLoop (x y color : Int) : Nat → CircleState → ManagedSurface → Option ManagedSurface
  | 0, _, _ => none
  | fuel + 1, st, surf =>
    if (circleNext st).cx ≤ (circleNext st).cy then
      circlefillLoop x y color fuel (circleNext st) (circleBody surf x y color st)
    else some (circleBody surf x y color st)

/-- Member function `void BITMAP::circlefill(int x, int y, int radius, int color)` (to which the
free function `circlefill` forwards), over unbounded integers.  The fuel
`max(radius, 0) + 1` is enough for every radius. -/
def BITMAP.circlefill (bmp : BITMAP) (x y radius color : Int) : Option BITMAP :=
  (circlefillLoop x y color (radius.toNat + 1) (circleInit radius) bmp.owner).map bmp.withOwner

/-- Pixel `(px, py)` lies on one of the spans handed to `hLine` by the pass
through the body in state `st`. -/
def stepCovers (x y : Int) (st : CircleState) (px py : Int) : Prop :=
  ((py = y - st.cx ∨ (st.cx ≠ 0 ∧ py = y + st.cx)) ∧ x - st.cy ≤ px ∧ px ≤ x + st.cy) ∨
    (¬ st.df < 0 ∧ st.cx ≠ st.cy ∧ (py = y - st.cy ∨ (st.cy ≠ 0 ∧ py = y + st.cy)) ∧
      x - st.cx ≤ px ∧ px ≤ x + st.cx)

instance (x y : Int) (st : CircleState) (px py : Int) : Decidable (stepCovers x y st px py) := by
  unfold stepCovers; infer_instance

/-- Pixel `(px, py)` lies on one of the spans handed to `hLine` by the loop
started in state `st` (with the same fuel and the same loop condition as
`circlefillLoop`). -/
def loopCovers (x y : Int) : Nat → CircleState → Int → Int → Prop
  | 0, _, _, _ => False
  | fuel + 1, st, px, py =>
    stepCovers x y st px py ∨
      ((circleNext st).cx ≤ (circleNext st).cy ∧ loopCovers x y fuel (circleNext st) px py)

/-- The set of pixels `circlefill(x, y, radius, _)` fills: those on a span it
hands to `hLine`. -/
def circleFilled (x y radius px py : Int) : Prop :=
  loopCovers x y (radius.toNat + 1) (circleInit radius) px py

/-- Pixel `(px, py)` lies inside the surface. -/
def ManagedSurface.inside (surf : ManagedSurface) (px py : Int) : Prop :=
  0 ≤ px ∧ px < surf.w ∧ 0 ≤ py ∧ py < surf.h

instance (surf : ManagedSurface) (px py : Int) : Decidable (surf.inside px py) := by
  unfold ManagedSurface.inside; infer_instance

/-- Surface `out` is `surf` with the pixels of the set `P` that lie inside the
surface set to `color` (in the width of the format) and every other cell
untouched. -/
def Painted (color : Int) (surf out : ManagedSurface) (P : Int → Int → Prop) : Prop :=
  out.w = surf.w ∧ out.h = surf.h ∧ out.format = surf.format ∧
    ∀ px py, (P px py ∧ surf.inside px py →
        out.pix px py = truncTo surf.format.bytesPerPixel color) ∧
      (¬ (P px py ∧ surf.inside px py) → out.pix px py = surf.pix px py)

/-- The loop invariant of `circlefill` for radius `r`, at the head of the body:
the increments follow `cx` and `cy`, the decision variable is the midpoint
value, and `(cx, cy)` lies within half a pixel of the circle. -/
def CircleInv (r : Int) (st : CircleState) : Prop :=
  0 ≤ st.cx ∧ st.cx ≤ st.cy ∧ st.cy ≤ r ∧ st.d_e = 2 * st.cx + 3 ∧
    st.d_se = 2 * st.cx - 2 * st.cy + 5 ∧
    st.df = (st.cx + 1) * (st.cx + 1) + st.cy * st.cy - st.cy - r * r ∧
    st.cx * st.cx + st.cy * st.cy - st.cy ≤ r * r ∧
    r * r ≤ st.cx * st.cx + st.cy * st.cy + st.cy

/-! ## Depth query, unsupported depths, clip rectangle -/

/-- Modelled from the spec: `PixelFormat::bpp` (`graphics/pixelformat.h` is not
among the sources), the "native bit count" of a format: the bits of its four
channels, each channel having 8 bits less its loss. -/
def PixelFormat.bpp (f : PixelFormat) : Nat :=
  (8 - f.rLoss) + (8 - f.gLoss) + (8 - f.bLoss) + (8 - f.aLoss)

/-- Function `int bitmap_color_depth(BITMAP *bmp)`:
`(surf.format.bytesPerPixel == 1) ? 8 : surf.format.bpp()`. -/
def bitmap_color_depth (bmp : BITMAP) : Int :=
  if bmp.owner.format.bytesPerPixel = 1 then 8 else (bmp.owner.format.bpp : Int)

/-- Function `void _putpixel15(BITMAP *bmp, int x, int y, int color)`:
`error("Unsupported bpp")`. -/
def _putpixel15 (_bmp : BITMAP) (_x _y _color : Int) : Except String BITMAP :=
  .error "Unsupported bpp"

/-- Function `void _putpixel24(BITMAP *bmp, int x, int y, int color)`:
`error("Unsupported bpp")`. -/
def _putpixel24 (_bmp : BITMAP) (_x _y _color : Int) : Except String BITMAP :=
  .error "Unsupported bpp"

/-- Function `int _getpixel15(BITMAP *bmp, int x, int y)`: `error("Unsupported bpp")`. -/
def _getpixel15 (_bmp : BITMAP) (_x _y : Int) : Except String Int :=
  .error "Unsupported bpp"

/-- Function `int _getpixel24(BITMAP *bmp, int x, int y)`: `error("Unsupported bpp")`. -/
def _getpixel24 (_bmp : BITMAP) (_x _y : Int) : Except String Int :=
  .error "Unsupported bpp"

/-- A 24-bit format, `Graphics::PixelFormat(3, 8, 8, 8, 0, 16, 8, 0, 0)`: three
bytes per pixel. -/
def format888 : PixelFormat :=
  { bytesPerPixel := 3, rLoss := 0, gLoss := 0, bLoss := 0, aLoss := 8,
    rShift := 16, gShift := 8, bShift := 0, aShift := 0 }

/-- A 2x1 bitmap of three bytes per pixel, every pixel 0. -/
def bitmap24 : BITMAP := BITMAP.mk_from (ManagedSurface.blank 2 1 format888 0)

/-- Function `void set_clip_rect(BITMAP *bitmap, int x1, int y1, int x2, int y2)`. -/
def set_clip_rect (bitmap : BITMAP) (x1 y1 x2 y2 : Int) : BITMAP :=
  { bitmap with cl := x1, ct := y1, cr := x2, cb := y2 }

/-- Function `void get_clip_rect(BITMAP *bitmap, int *x1, int *y1, int *x2, int *y2)`.
An out-pointer is `none` when null and `some v` when it points at an `int`
holding `v`; the result gives what the four pointers point at afterwards. -/
def get_clip_rect (bitmap : BITMAP) (x1 y1 x2 y2 : Option Int) :
    Option Int × Option Int × Option Int × Option Int :=
  (x1.map (fun _ => bitmap.cl), y1.map (fun _ => bitmap.ct), x2.map (fun _ => bitmap.cr),
    y2.map (fun _ => bitmap.cb))

/-- The clip rectangle of a bitmap lies inside `[0, w] x [0, h]`:
`0 <= cl <= cr <= w` and `0 <= ct <= cb <= h`. -/
def clipInside (bmp : BITMAP) : Prop :=
  0 ≤ bmp.cl ∧ bmp.cl ≤ bmp.cr ∧ bmp.cr ≤ bmp.w ∧ 0 ≤ bmp.ct ∧ bmp.ct ≤ bmp.cb ∧ bmp.cb ≤ bmp.h

instance (bmp : BITMAP) : Decidable (clipInside bmp) := by
  unfold clipInside; infer_instance

/-- The arguments of a `set_clip_rect` call describe a rectangle inside
`[0, w] x [0, h]` of the bitmap. -/
def clipArgsInside (bmp : BITMAP) (x1 y1 x2 y2 : Int) : Prop :=
  0 ≤ x1 ∧ x1 ≤ x2 ∧ x2 ≤ bmp.w ∧ 0 ≤ y1 ∧ y1 ≤ y2 ∧ y2 ≤ bmp.h

instance (bmp : BITMAP) (x1 y1 x2 y2 : Int) : Decidable (clipArgsInside bmp x1 y1 x2 y2) := by
  unfold clipArgsInside; infer_instance

/-- The bitmaps reachable from construction through the operations of the API
embedded here, where a call `set_clip_rect(bmp, x1, y1, x2, y2)` is admitted
when `guard bmp x1 y1 x2 y2` holds. -/
inductive Reachable (guard : BITMAP → Int → Int → Int → Int → Prop) : BITMAP → Prop
  | construct (owner : ManagedSurface) : Reachable guard (BITMAP.mk_from owner)
  | set_clip (bmp : BITMAP) (x1 y1 x2 y2 : Int) :
      Reachable guard bmp → guard bmp x1 y1 x2 y2 →
      Reachable guard (set_clip_rect bmp x1 y1 x2 y2)
  | put (bmp : BITMAP) (x y color : Int) :
      Reachable guard bmp → Reachable guard (putpixel bmp x y color)
  | put8 (bmp : BITMAP) (x y color : Int) :
      Reachable guard bmp → Reachable guard (_putpixel bmp x y color)
  | put16 (bmp : BITMAP) (x y color : Int) :
      Reachable guard bmp → Reachable guard (_putpixel16 bmp x y color)
  | put32 (bmp : BITMAP) (x y color : Int) :
      Reachable guard bmp → Reachable guard (_putpixel32 bmp x y color)
  | circle (bmp out : BITMAP) (x y radius color : Int) :
      Reachable guard bmp → bmp.circlefill x y radius color = some out → Reachable guard out
  | lit (bmp sprite out : BITMAP) (x y color : Int) :
      Reachable guard bmp → draw_lit_sprite bmp sprite x y color = .ok out →
      Reachable guard out
  | blit (src dest : BITMAP) (src_x src_y dst_x dst_y width height : Int) :
      Reachable guard dest →
      Reachable guard (masked_blit src dest src_x src_y dst_x dst_y width height)

/-! ## Rectangles and unimplemented sprite operations -/

/-- Function `void rect(BITMAP *bmp, int x1, int y1, int x2, int y2, int color)`:
the two `SWAP`s, then `surf.frameRect(Common::Rect(x1, y1, x2, y2), color)`.
`ManagedSurface::frameRect` is not among the sources and is a parameter. -/
def rect (frameRect : ManagedSurface → Rect → Int → ManagedSurface) (bmp : BITMAP)
    (x1 y1 x2 y2 color : Int) : BITMAP :=
  bmp.withOwner (frameRect bmp.owner
    { left := if x1 > x2 then x2 else x1, top := if y1 > y2 then y2 else y1,
      right := if x1 > x2 then x1 else x2, bottom := if y1 > y2 then y1 else y2 } color)

/-- Function `void rectfill(BITMAP *bmp, int x1, int y1, int x2, int y2, int color)`:
the two `SWAP`s, then `surf.fillRect(Common::Rect(x1, y1, x2, y2), color)`.
`ManagedSurface::fillRect` is not among the sources and is a parameter. -/
def rectfill (fillRect : ManagedSurface → Rect → Int → ManagedSurface) (bmp : BITMAP)
    (x1 y1 x2 y2 color : Int) : BITMAP :=
  bmp.withOwner (fillRect bmp.owner
    { left := if x1 > x2 then x2 else x1, top := if y1 > y2 then y2 else y1,
      right := if x1 > x2 then x1 else x2, bottom := if y1 > y2 then y1 else y2 } color)

/-- Function `void draw_sprite_v_flip(BITMAP *bmp, const BITMAP *sprite, int x, int y)`:
`error("TODO: draw_sprite_v_flip")`. -/
def draw_sprite_v_flip (_bmp _sprite : BITMAP) (_x _y : Int) : Except String BITMAP :=
  .error "TODO: draw_sprite_v_flip"

/-- Function `void draw_sprite_vh_flip(BITMAP *bmp, const BITMAP *sprite, int x, int y)`:
`error("TODO: draw_sprite_vh_flip")`. -/
def draw_sprite_vh_flip (_bmp _sprite : BITMAP) (_x _y : Int) : Except String BITMAP :=
  .error "TODO: draw_sprite_vh_flip"

/-- Function `void rotate_sprite(BITMAP *bmp, const BITMAP *sprite, int x, int y,
fixed angle)`: `error("TODO: rotate_sprite")`. -/
def rotate_sprite (_bmp _sprite : BITMAP) (_x _y _angle : Int) : Except String BITMAP :=
  .error "TODO: rotate_sprite"

/-- Function `void pivot_sprite(BITMAP *bmp, const BITMAP *sprite, int x, int y, int cx,
int cy, fixed angle)`: `error("TODO: pivot_sprite")`. -/
def pivot_sprite (_bmp _sprite : BITMAP) (_x _y _cx _cy _angle : Int) : Except String BITMAP :=
  .error "TODO: pivot_sprite"

/-! ## Filled circle: the reference procedure of the specification -/

/-- The state of the reference procedure, in the words of the specification:
`cx`, `cy`, the decision variable, `d_e` and `d_se`. -/
structure RefState where
  cx : Int
  cy : Int
  decision : Int
  d_e : Int
  d_se : Int
  deriving DecidableEq

/-- The specification's initial state: `cx=0, cy=radius, decision=1-radius,
d_e=3, d_se=-2*radius+5`. -/
def refInit (radius : Int) : RefState :=
  { cx := 0, cy := radius, decision := 1 - radius, d_e := 3, d_se := -2 * radius + 5 }

/-- The spans `(left, row, right)` the specification draws at a step: "spans
`[x-cy, x+cy]` at row `y-cx` and (if `cx≠0`) at row `y+cx`; when the decision
variable is non-negative, additionally spans `[x-cx, x+cx]` at rows `y-cy` and
(if `cy≠0`) `y+cy`". -/
def refSpans (x y : Int) (st : RefState) : List (Int × Int × Int) :=
  [(x - st.cy, y - st.cx, x + st.cy)] ++
    (if st.cx ≠ 0 then [(x - st.cy, y + st.cx, x + st.cy)] else []) ++
    (if 0 ≤ st.decision then
      [(x - st.cx, y - st.cy, x + st.cx)] ++
        (if st.cy ≠ 0 then [(x - st.cx, y + st.cy, x + st.cx)] else [])
    else [])

/-- The specification's update rule: "if `decision<0`, `decision += d_e; d_e +=
2; d_se += 2`; else ... `decision += d_se; d_e += 2; d_se += 4; cy -= 1`.
Always `cx += 1`". -/
def refNext (st : RefState) : RefState :=
  if st.decision < 0 then
    { cx := st.cx + 1, cy := st.cy, decision := st.decision + st.d_e, d_e := st.d_e + 2,
      d_se := st.d_se + 2 }
  else
    { cx := st.cx + 1, cy := st.cy - 1, decision := st.decision + st.d_se, d_e := st.d_e + 2,
      d_se := st.d_se + 4 }

/-- The spans of the reference procedure, "loop while `cx ≤ cy`": a step is
taken as long as `cx ≤ cy` holds.  `fuel` bounds the number of steps. -/
def refLoop (x y : Int) : Nat → RefState → List (Int × Int × Int)
  | 0, _ => []
  | fuel + 1, st =>
    if st.cx ≤ st.cy then refSpans x y st ++ refLoop x y fuel (refNext st) else []

/-- Pixel `(px, py)` lies on the span `(left, row, right)`. -/
def spanCovers (s : Int × Int × Int) (px py : Int) : Prop :=
  py = s.2.1 ∧ s.1 ≤ px ∧ px ≤ s.2.2

/-- The set of pixels the reference procedure fills for centre `(x, y)` and the
given radius. -/
def refFilled (x y radius px py : Int) : Prop :=
  ∃ s ∈ refLoop x y (radius.toNat + 1) (refInit radius), spanCovers s px py

/-- The reference state with the values of the variables of `circlefill`. -/
def CircleState.toRef (st : CircleState) : RefState :=
  { cx := st.cx, cy := st.cy, decision := st.df, d_e := st.d_e, d_se := st.d_se }

/-- The number of passes through the body of the `do` loop of `circlefill`
started in state `st`, with the fuel and the loop condition of
`circlefillLoop`. -/
def circlePasses : Nat → CircleState → Option Nat
  | 0, _ => none
  | fuel + 1, st =>
    if (circleNext st).cx ≤ (circleNext st).cy then
      (circlePasses fuel (circleNext st)).map (fun n => n + 1)
    else some 1

end AGS3

/-! # Oo-Topos room classification (`engines/glk/comprehend/game_oo.cpp`) -/

namespace Glk.Comprehend

/-- The macro `OO_ROOM_FLAG_DARK`. -/
def OO_ROOM_FLAG_DARK : Nat := 0x02

/-- The macro `OO_BRIGHT_ROOM`. -/
def OO_BRIGHT_ROOM : Nat := 0x19

/-- The macro `OO_FLAG_WEARING_GOGGLES`. -/
def OO_FLAG_WEARING_GOGGLES : Nat := 0x1b

/-- The macro `OO_FLAG_FLASHLIGHT_ON`. -/
def OO_FLAG_FLASHLIGHT_ON : Nat := 0x27

/-- The part of `struct room` the function reads: its flag byte. -/
structure room where
  flags : Nat

/-- The part of the game state behind `game->info` the function reads: the
array of rooms and the array of boolean game flags, by index. -/
structure game_info where
  rooms : Nat → room
  flags : Nat → Bool

/-- The game state `struct comprehend_game`. -/
structure comprehend_game where
  info : game_info

/-- What a call of `oo_room_is_special` leaves behind: the `int` returned, what
the out-pointer `room_desc_string` points at (`none` for a null pointer) and
the game state. -/
structure SpecialResult where
  ret : Int
  room_desc_string : Option Nat
  game : comprehend_game

/-- Function `static int oo_room_is_special(struct comprehend_game *game, unsigned
room_index, unsigned *room_desc_string)`.  The constants `ROOM_IS_NORMAL`,
`ROOM_IS_DARK` and `ROOM_IS_TOO_BRIGHT` come from `game.h`, which is not among
the sources, and are parameters.  The out-pointer is `none` when null and
`some v` when it points at an `unsigned` holding `v`. -/
def oo_room_is_special (ROOM_IS_NORMAL ROOM_IS_DARK ROOM_IS_TOO_BRIGHT : Int)
    (game : comprehend_game) (room_index : Nat) (room_desc_string : Option Nat) :
    SpecialResult :=
  if (game.info.rooms room_index).flags &&& OO_ROOM_FLAG_DARK ≠ 0 ∧
      game.info.flags OO_FLAG_FLASHLIGHT_ON = false then
    { ret := ROOM_IS_DARK, room_desc_string := room_desc_string.map (fun _ => 0xb3),
      game := game }
  else if room_index = OO_BRIGHT_ROOM ∧ game.info.flags OO_FLAG_WEARING_GOGGLES = false then
    { ret := ROOM_IS_TOO_BRIGHT, room_desc_string := room_desc_string.map (fun _ => 0x1c),
      game := game }
  else { ret := ROOM_IS_NORMAL, room_desc_string := room_desc_string, game := game }

/-- The room is dark: it has flag bit `0x02` and game flag `0x27` (flashlight
on) is clear. -/
def roomDark (game : comprehend_game) (room_index : Nat) : Prop :=
  (game.info.rooms room_index).flags.testBit 1 = true ∧ game.info.flags 0x27 = false

/-- The room is too bright: its index is `0x19` and game flag `0x1b` (wearing
goggles) is clear. -/
def roomTooBright (game : comprehend_game) (room_index : Nat) : Prop :=
  room_index = 0x19 ∧ game.info.flags 0x1b = false

instance (game : comprehend_game) (room_index : Nat) : Decidable (roomDark game room_index) := by
  unfold roomDark; infer_instance

instance (game : comprehend_game) (room_index : Nat) :
    Decidable (roomTooBright game room_index) := by
  unfold roomTooBright; infer_instance

/-- A game state in which every room has the dark flag and no game flag is
set. -/
def darkGame : comprehend_game :=
  { info := { rooms := fun _ => { flags := 0x02 }, flags := fun _ => false } }

end Glk.Comprehend

namespace AGS3

/-! ## Lemmas on the machine integers -/

theorem truncTo_one (c : Int) : truncTo 1 c = (c % 256).toNat := by
  simp [truncTo]

theorem truncTo_two (c : Int) : truncTo 2 c = (c % 65536).toNat := by
  simp [truncTo]

theorem truncTo_four (c : Int) : truncTo 4 c = (c % 4294967296).toNat := by
  simp [truncTo]

theorem load_store_same (surf : ManagedSurface) (k : Nat) (x y : Int) (c : Int) :
    (surf.store k x y c).load k x y = truncTo k c % 256 ^ k := by
  simp [ManagedSurface.load, ManagedSurface.store]

theorem load_store_other (surf : ManagedSurface) (k j : Nat) (x y px py : Int) (c : Int)
    (hne : ¬ (px = x ∧ py = y)) :
    (surf.store k x y c).load j px py = surf.load j px py := by
  simp [ManagedSurface.load, ManagedSurface.store, hne]

/-! ## C1: round trip -/

/-- C1: on a surface of 1, 2 or 4 bytes per pixel, for every in-bounds `(x, y)`
and every colour representable in the format, `getpixel` after `putpixel`
returns that colour. -/
theorem getpixel_putpixel_roundtrip (bmp : BITMAP) (x y c : Int)
    (hx : 0 ≤ x ∧ x < bmp.owner.w) (hy : 0 ≤ y ∧ y < bmp.owner.h)
    (hc : representable bmp.owner.format.bytesPerPixel c) :
    getpixel (putpixel bmp x y c) x y = .ok c := by
  have hb : ¬ (x < 0 ∨ y < 0 ∨ x ≥ bmp.owner.w ∨ y ≥ bmp.owner.h) := by omega
  rcases hc with ⟨hk, h0, h1⟩ | ⟨hk, h0, h1⟩ | ⟨hk, h0, h1⟩
  · simp only [getpixel, putpixel, hk, BITMAP.withOwner, ManagedSurface.store,
      ManagedSurface.load, truncTo_one]
    rw [if_neg hb]
    simp only [and_self, if_true]
    congr 1
    omega
  · simp only [getpixel, putpixel, hk, BITMAP.withOwner, ManagedSurface.store,
      ManagedSurface.load, truncTo_two]
    rw [if_neg hb]
    simp only [and_self, if_true]
    congr 1
    omega
  · simp only [getpixel, putpixel, hk, BITMAP.withOwner, ManagedSurface.store,
      ManagedSurface.load, truncTo_four]
    rw [if_neg hb]
    simp only [and_self, if_true, toInt32]
    congr 1
    split <;> omega

/-- C1 witness: a 3x2 surface of 2 bytes per pixel, pixel `(2, 1)`, colour
`0xF81F`. -/
theorem getpixel_putpixel_roundtrip_witness :
    getpixel (putpixel (BITMAP.mk_from (ManagedSurface.blank 3 2 format565 0)) 2 1 63519) 2 1
      = .ok 63519 :=
  getpixel_putpixel_roundtrip (BITMAP.mk_from (ManagedSurface.blank 3 2 format565 0)) 2 1 63519
    (by decide) (by decide) (by decide)

/-! ## C2: reads outside the surface -/

/-- C2: for every `(x, y)` outside `[0, w) x [0, h)` each pixel reader (the free
`getpixel`, the member `BITMAP::getpixel`, `_getpixel`, `_getpixel16` and
`_getpixel32`) returns `-1`, whatever the format and whatever the cells hold. -/
theorem getpixel_out_of_bounds (bmp : BITMAP) (x y : Int)
    (hout : x < 0 ∨ y < 0 ∨ x ≥ bmp.owner.w ∨ y ≥ bmp.owner.h) :
    getpixel bmp x y = .ok (-1) ∧ bmp.getpixel x y = -1 ∧ _getpixel bmp x y = -1 ∧
      _getpixel16 bmp x y = -1 ∧ _getpixel32 bmp x y = -1 := by
  refine ⟨?_, ?_, ?_, ?_, ?_⟩
  · simp only [getpixel]; rw [if_pos hout]
  · simp only [BITMAP.getpixel, BITMAP.w, BITMAP.h]; rw [if_pos hout]
  · simp only [_getpixel]; rw [if_pos hout]
  · simp only [_getpixel16]; rw [if_pos hout]
  · simp only [_getpixel32]; rw [if_pos hout]

/-- C2 witness: `(-1, 0)` on a 10x10 surface of 4 bytes per pixel. -/
theorem getpixel_out_of_bounds_witness :
    getpixel (BITMAP.mk_from (ManagedSurface.blank 10 10 format8888 9)) (-1) 0 = .ok (-1) ∧
      (BITMAP.mk_from (ManagedSurface.blank 10 10 format8888 9)).getpixel (-1) 0 = -1 ∧
      _getpixel (BITMAP.mk_from (ManagedSurface.blank 10 10 format8888 9)) (-1) 0 = -1 ∧
      _getpixel16 (BITMAP.mk_from (ManagedSurface.blank 10 10 format8888 9)) (-1) 0 = -1 ∧
      _getpixel32 (BITMAP.mk_from (ManagedSurface.blank 10 10 format8888 9)) (-1) 0 = -1 :=
  getpixel_out_of_bounds (BITMAP.mk_from (ManagedSurface.blank 10 10 format8888 9)) (-1) 0
    (by decide)

/-! ## C4: mask colour -/

/-- C4: `bitmap_mask_color` returns the transparent colour of the bitmap's
format, 0 for 1 byte per pixel and the packed `RGBToColor(255, 0, 255)`
otherwise (as an `int`); for the bitmaps built by `create_bitmap_ex` this is 0
at depth 8, `0xF81F` at depth 16 and, at depth 32, the `int` whose 32-bit pattern
is `0xFFFF00FF`. -/
theorem bitmap_mask_color_spec (bmp : BITMAP) (width height : Nat) :
    bitmap_mask_color bmp
        = (if bmp.format.bytesPerPixel = 1 then 0
            else toInt32 (bmp.format.RGBToColor 255 0 255)) ∧
      (create_bitmap_ex 8 width height).map bitmap_mask_color = .ok 0 ∧
      (create_bitmap_ex 16 width height).map bitmap_mask_color = .ok 0xF81F ∧
      (create_bitmap_ex 32 width height).map bitmap_mask_color = .ok (toInt32 0xFFFF00FF) ∧
      (create_bitmap_ex 32 width height).map (fun b => bitmap_mask_color b % 4294967296)
        = .ok 0xFFFF00FF := by
  refine ⟨?_, ?_, ?_, ?_, ?_⟩
  · unfold bitmap_mask_color TRANSPARENT_COLOR
    split <;> simp [toInt32]
  · rfl
  · show Except.ok (toInt32 (TRANSPARENT_COLOR format565)) = Except.ok 63519
    decide
  · show Except.ok (toInt32 (TRANSPARENT_COLOR format8888)) = Except.ok (toInt32 4294902015)
    decide
  · show Except.ok (toInt32 (TRANSPARENT_COLOR format8888) % 4294967296) = Except.ok 4294902015
    decide

/-! ## Double precision: rounding error of the blend -/

theorem roundHalfEven_err (q : ℚ) : |(roundHalfEven q : ℚ) - q| ≤ 1 / 2 := by
  have h1 : (⌊q⌋ : ℚ) ≤ q := Int.floor_le q
  have h2 : q < ⌊q⌋ + 1 := Int.lt_floor_add_one q
  unfold roundHalfEven
  rw [abs_le]
  split_ifs <;> push_cast <;> constructor <;> linarith

theorem roundHalfEven_intCast (z : ℤ) : roundHalfEven (z : ℚ) = z := by
  unfold roundHalfEven
  simp

theorem roundDouble_zero : roundDouble 0 = 0 := by
  simp [roundDouble]

theorem roundDouble_err (x : ℚ) (hx : 0 < x) : |roundDouble x - x| ≤ x / 2 ^ 53 := by
  have hne : x ≠ 0 := ne_of_gt hx
  have habs : |x| = x := abs_of_pos hx
  unfold roundDouble
  rw [if_neg hne, habs]
  have hle : (2 : ℚ) ^ Int.log 2 x ≤ x := by
    have := Int.zpow_log_le_self (b := 2) (r := x) (by norm_num) hx
    simpa using this
  generalize Int.log 2 x = e at hle
  have hu : (0 : ℚ) < 2 ^ (e - 52) := by positivity
  have hsplit : (2 : ℚ) ^ (e - 52) = 2 ^ e / 2 ^ 52 := by
    rw [zpow_sub₀ (by norm_num)]; norm_num
  have hq := roundHalfEven_err (x / 2 ^ (e - 52))
  have hmul : |(roundHalfEven (x / 2 ^ (e - 52)) : ℚ) * 2 ^ (e - 52) - x|
      = |(roundHalfEven (x / 2 ^ (e - 52)) : ℚ) - x / 2 ^ (e - 52)| * 2 ^ (e - 52) := by
    rw [← abs_of_pos hu, ← abs_mul, abs_of_pos hu]
    congr 1
    field_simp
  rw [hmul]
  calc |(roundHalfEven (x / 2 ^ (e - 52)) : ℚ) - x / 2 ^ (e - 52)| * 2 ^ (e - 52)
      ≤ 1 / 2 * 2 ^ (e - 52) := by
        apply mul_le_mul_of_nonneg_right hq (le_of_lt hu)
    _ = 2 ^ e / 2 ^ 53 := by rw [hsplit]; ring
    _ ≤ x / 2 ^ 53 := by
        apply div_le_div_of_nonneg_right hle (by positivity)

theorem roundDouble_one : roundDouble 1 = 1 := by
  unfold roundDouble
  rw [if_neg one_ne_zero, abs_one, Int.log_one_right]
  have h : (1 : ℚ) / 2 ^ ((0 : ℤ) - 52) = ((2 ^ 52 : ℤ) : ℚ) := by
    rw [zero_sub, zpow_neg]; norm_num
  rw [h, roundHalfEven_intCast]
  rw [zero_sub, zpow_neg]; norm_num

theorem roundDouble_near (x : ℚ) (h0 : 0 ≤ x) (h1 : x ≤ 1024) :
    |roundDouble x - x| ≤ 1 / 2 ^ 43 ∧ 0 ≤ roundDouble x := by
  rcases eq_or_lt_of_le h0 with h | h
  · rw [← h, roundDouble_zero]; norm_num
  · have herr := roundDouble_err x h
    have hb : x / 2 ^ 53 ≤ 1 / 2 ^ 43 := by
      rw [div_le_div_iff₀ (by positivity) (by positivity)]
      norm_num
      linarith
    have hx53 : x / 2 ^ 53 ≤ x := by
      apply div_le_self h0; norm_num
    rw [abs_le] at herr
    constructor
    · rw [abs_le]; constructor <;> linarith
    · linarith

theorem scale_bound (n d e : ℚ) (hn0 : 0 ≤ n) (hn : n ≤ 255) (hd : |d| ≤ e) :
    |n * d| ≤ 255 * e := by
  rw [abs_mul, abs_of_nonneg hn0]
  exact mul_le_mul hn hd (abs_nonneg _) (by norm_num)

theorem litAlpha_bounds (c : Nat) (hc : c ≤ 255) :
    |litAlpha c - (c : ℚ) / 255| ≤ 1 / 2 ^ 43 ∧ 0 ≤ litAlpha c ∧ litAlpha c ≤ 1 := by
  have hcq : (c : ℚ) ≤ 255 := by exact_mod_cast hc
  have hc0 : (0 : ℚ) ≤ c := Nat.cast_nonneg c
  have ha0 : (0 : ℚ) ≤ (c : ℚ) / 255 := by positivity
  have ha1 : (c : ℚ) / 255 ≤ 1 := by rw [div_le_one (by norm_num)]; exact hcq
  have hn := roundDouble_near ((c : ℚ) / 255) ha0 (by linarith)
  unfold litAlpha
  simp only [Int.cast_natCast]
  refine ⟨hn.1, hn.2, ?_⟩
  rcases Nat.lt_or_ge c 255 with h | h
  · have hc254 : (c : ℚ) ≤ 254 := by
      have : c ≤ 254 := by omega
      exact_mod_cast this
    have : (c : ℚ) / 255 ≤ 254 / 255 := by
      apply div_le_div_of_nonneg_right hc254; norm_num
    have h2 := (abs_le.mp hn.1).2
    norm_num at h2 ⊢
    linarith
  · have : c = 255 := by omega
    subst this
    norm_num
    rw [roundDouble_one]


theorem sum_close (a alpha om t1 t2 s src dst e : ℚ)
    (hs0 : 0 ≤ src) (hs : src ≤ 255) (hd0 : 0 ≤ dst) (hd : dst ≤ 255)
    (hal : |alpha - a| ≤ e) (hom : |om - (1 - alpha)| ≤ e)
    (ht1 : |t1 - src * alpha| ≤ e) (ht2 : |t2 - dst * om| ≤ e) (hsum : |s - (t1 + t2)| ≤ e) :
    |s - (src * a + dst * (1 - a))| ≤ 768 * e := by
  have hal' := abs_le.mp hal
  have hom' := abs_le.mp hom
  have ht1' := abs_le.mp ht1
  have ht2' := abs_le.mp ht2
  have hsum' := abs_le.mp hsum
  have e1 := abs_le.mp (scale_bound src (alpha - a) e hs0 hs hal)
  have hom3 : |om - (1 - a)| ≤ 2 * e := by
    rw [abs_le]; constructor <;> linarith [hom'.1, hom'.2, hal'.1, hal'.2]
  have e2 := abs_le.mp (scale_bound dst (om - (1 - a)) (2 * e) hd0 hd hom3)
  rw [abs_le]
  constructor <;>
    linarith [hsum'.1, hsum'.2, ht1'.1, ht1'.2, ht2'.1, ht2'.2, e1.1, e1.2, e2.1, e2.2]

theorem litSum_near (c src dst : Nat) (hc : c ≤ 255) (hs : src ≤ 255) (hd : dst ≤ 255) :
    |litSum (litAlpha c) src dst - ((src : ℚ) * c + (dst : ℚ) * (255 - c)) / 255| ≤ 1 / 2 ^ 33 ∧
      0 ≤ litSum (litAlpha c) src dst := by
  obtain ⟨hal, hal0, hal1⟩ := litAlpha_bounds c hc
  generalize litAlpha c = alpha at hal hal0 hal1
  have hsq : (src : ℚ) ≤ 255 := by exact_mod_cast hs
  have hdq : (dst : ℚ) ≤ 255 := by exact_mod_cast hd
  have hs0 : (0 : ℚ) ≤ src := Nat.cast_nonneg _
  have hd0 : (0 : ℚ) ≤ dst := Nat.cast_nonneg _
  obtain ⟨hom, hom0⟩ := roundDouble_near (1 - alpha) (by linarith) (by linarith)
  have h43 : (1 : ℚ) / 2 ^ 43 ≤ 1 := by norm_num
  have hom2 : roundDouble (1 - alpha) ≤ 2 := by
    have := (abs_le.mp hom).2
    linarith
  have hsa0 : 0 ≤ (src : ℚ) * alpha := mul_nonneg hs0 hal0
  have hsa1 : (src : ℚ) * alpha ≤ 255 * 1 := mul_le_mul hsq hal1 hal0 (by norm_num)
  obtain ⟨ht1, ht10⟩ := roundDouble_near ((src : ℚ) * alpha) hsa0 (by linarith)
  have hdo0 : 0 ≤ (dst : ℚ) * roundDouble (1 - alpha) := mul_nonneg hd0 hom0
  have hdo1 : (dst : ℚ) * roundDouble (1 - alpha) ≤ 255 * 2 :=
    mul_le_mul hdq hom2 hom0 (by norm_num)
  obtain ⟨ht2, ht20⟩ := roundDouble_near ((dst : ℚ) * roundDouble (1 - alpha)) hdo0
    (by linarith)
  have hsum1 : roundDouble ((src : ℚ) * alpha) + roundDouble ((dst : ℚ) * roundDouble (1 - alpha))
      ≤ 1024 := by
    have := (abs_le.mp ht1).2
    have := (abs_le.mp ht2).2
    linarith
  obtain ⟨hs5, hs50⟩ := roundDouble_near _ (add_nonneg ht10 ht20) hsum1
  refine ⟨?_, hs50⟩
  have key := sum_close ((c : ℚ) / 255) alpha _ _ _ _ src dst (1 / 2 ^ 43) hs0 hsq hd0 hdq
    hal hom ht1 ht2 hs5
  have hE : ((src : ℚ) * c + (dst : ℚ) * (255 - c)) / 255
      = (src : ℚ) * ((c : ℚ) / 255) + (dst : ℚ) * (1 - (c : ℚ) / 255) := by
    field_simp
  unfold litSum
  rw [hE]
  refine le_trans key ?_
  norm_num

theorem blend_total_le (c src dst : Nat) (hc : c ≤ 255) (hs : src ≤ 255) (hd : dst ≤ 255) :
    src * c + dst * (255 - c) ≤ 65025 := by
  have h1 : src * c ≤ 255 * c := Nat.mul_le_mul_right c hs
  have h2 : dst * (255 - c) ≤ 255 * (255 - c) := Nat.mul_le_mul_right _ hd
  omega

theorem castToByte_litSum (c src dst : Nat) (hc : c ≤ 255) (hs : src ≤ 255) (hd : dst ≤ 255) :
    castToByte (litSum (litAlpha c) src dst) = (src * c + dst * (255 - c)) / 255 ∨
      ((src * c + dst * (255 - c)) % 255 = 0 ∧
        castToByte (litSum (litAlpha c) src dst) + 1 = (src * c + dst * (255 - c)) / 255) := by
  obtain ⟨hnear, h0⟩ := litSum_near c src dst hc hs hd
  have hN := blend_total_le c src dst hc hs hd
  generalize litSum (litAlpha c) src dst = s at hnear h0
  have hcast : ((src : ℚ) * c + (dst : ℚ) * (255 - c)) = ((src * c + dst * (255 - c) : ℕ) : ℚ) := by
    push_cast [Nat.cast_sub hc]; ring
  rw [hcast] at hnear
  generalize src * c + dst * (255 - c) = N at hnear hN ⊢
  have hdm : N = 255 * (N / 255) + N % 255 := (Nat.div_add_mod N 255).symm
  have hr : N % 255 < 255 := Nat.mod_lt _ (by norm_num)
  have hk : N / 255 ≤ 255 := by omega
  generalize N / 255 = k at hdm hk ⊢
  generalize N % 255 = r at hdm hr ⊢
  subst hdm
  have hval : ((255 * k + r : ℕ) : ℚ) / 255 = (k : ℚ) + (r : ℚ) / 255 := by
    push_cast; field_simp; ring
  rw [hval] at hnear
  have hb := abs_le.mp hnear
  have heps : (1 : ℚ) / 2 ^ 33 < 1 / 255 := by norm_num
  have hr0 : (0 : ℚ) ≤ (r : ℚ) / 255 := by positivity
  have hkq : (k : ℚ) ≤ 255 := by exact_mod_cast hk
  have hbyte : ∀ z : ℤ, 0 ≤ z → z ≤ 255 → ⌊s⌋ = z → castToByte s = z.toNat := by
    intro z hz0 hz1 hfl
    unfold castToByte
    rw [if_pos h0, hfl]
    congr 1
    omega
  rcases Nat.eq_zero_or_pos r with hr' | hr'
  · subst hr'
    simp only [Nat.cast_zero, zero_div, add_zero] at hb
    rcases le_or_lt (k : ℚ) s with hks | hks
    · left
      have hfl : ⌊s⌋ = (k : ℤ) := by
        rw [Int.floor_eq_iff]
        push_cast
        constructor <;> linarith [hb.2]
      rw [hbyte k (by omega) (by omega) hfl]
      simp
    · right
      refine ⟨rfl, ?_⟩
      have hk1 : 1 ≤ k := by
        rcases Nat.eq_zero_or_pos k with h | h
        · subst h; simp at hks; linarith
        · exact h
      have hfl : ⌊s⌋ = (k : ℤ) - 1 := by
        rw [Int.floor_eq_iff]
        push_cast
        constructor <;> linarith [hb.1]
      rw [hbyte ((k : ℤ) - 1) (by omega) (by omega) hfl]
      omega
  · left
    have hr1 : (1 : ℚ) / 255 ≤ (r : ℚ) / 255 := by
      apply div_le_div_of_nonneg_right _ (by norm_num)
      exact_mod_cast hr'
    have hr2 : (r : ℚ) / 255 ≤ 254 / 255 := by
      apply div_le_div_of_nonneg_right _ (by norm_num)
      have : r ≤ 254 := by omega
      exact_mod_cast this
    have hfl : ⌊s⌋ = (k : ℤ) := by
      rw [Int.floor_eq_iff]
      push_cast
      constructor
      · linarith [hb.1]
      · have : (1 : ℚ) / 2 ^ 33 < 1 / 255 := heps
        linarith [hb.2]
    rw [hbyte k (by omega) (by omega) hfl]
    have : (255 * k + r) / 255 = k := by omega
    simp [this]

theorem roundHalfEven_eq_of_near (q : ℚ) (m : ℤ) (h : |q - m| < 1 / 2) :
    roundHalfEven q = m := by
  have h1 := abs_le.mp (roundHalfEven_err q)
  have h2 := abs_lt.mp h
  have h3 : ((roundHalfEven q : ℤ) : ℚ) < ((m + 1 : ℤ) : ℚ) := by push_cast; linarith [h1.2, h2.1]
  have h4 : ((m - 1 : ℤ) : ℚ) < ((roundHalfEven q : ℤ) : ℚ) := by
    push_cast; linarith [h1.1, h2.2]
  have h5 := Int.cast_lt.mp h3
  have h6 := Int.cast_lt.mp h4
  omega

/-- The `double` nearest to `x`, given its binade `2^e <= x < 2^(e+1)` and the
integer `m` nearest to `x / 2^(e-52)`. -/
theorem roundDouble_eval (x : ℚ) (e m : ℤ) (hx : 0 < x) (hlo : (2 : ℚ) ^ e ≤ x)
    (hhi : x < (2 : ℚ) ^ (e + 1)) (hm : |x / 2 ^ (e - 52) - m| < 1 / 2) :
    roundDouble x = m * 2 ^ (e - 52) := by
  have hlog : Int.log 2 x = e := by
    have h1 : e ≤ Int.log 2 x := by
      rw [← Int.zpow_le_iff_le_log (by norm_num) hx]
      simpa using hlo
    have h2 : Int.log 2 x < e + 1 := by
      rw [← Int.lt_zpow_iff_log_lt (by norm_num) hx]
      simpa using hhi
    omega
  unfold roundDouble
  rw [if_neg (ne_of_gt hx), abs_of_pos hx, hlog, roundHalfEven_eq_of_near _ m hm]

/-- The blend of source channel 1 and destination channel 103 at intensity 5:
the exact value is 101, the `double` computed is just below it and the channel
written is 100. -/
theorem litBlend_below_exact :
    litBlend (litAlpha (5 : Nat)) 1 103 = 100 ∧ (1 * 5 + 103 * (255 - 5)) / 255 = 101 := by
  have ha : litAlpha (5 : Nat) = 5651576002974740 * 2 ^ (-58 : ℤ) := by
    unfold litAlpha
    rw [roundDouble_eval _ (-6) 5651576002974740] <;> norm_num [abs_lt]
  have ht1 : roundDouble (((1 : Nat) : ℚ) * (5651576002974740 * 2 ^ (-58 : ℤ)))
      = 5651576002974740 * 2 ^ (-58 : ℤ) := by
    rw [roundDouble_eval _ (-6) 5651576002974740] <;> norm_num [abs_lt]
  have hom : roundDouble (1 - 5651576002974740 * 2 ^ (-58 : ℤ))
      = 8830587504648031 * 2 ^ (-53 : ℤ) := by
    rw [roundDouble_eval _ (-1) 8830587504648031] <;> norm_num [abs_lt]
  have ht2 : roundDouble (((103 : Nat) : ℚ) * (8830587504648031 * 2 ^ (-53 : ℤ)))
      = 7105863382646462 * 2 ^ (-46 : ℤ) := by
    rw [roundDouble_eval _ 6 7105863382646462] <;> norm_num [abs_lt]
  have hs : roundDouble (5651576002974740 * 2 ^ (-58 : ℤ) + 7105863382646462 * 2 ^ (-46 : ℤ))
      = 7107243161944063 * 2 ^ (-46 : ℤ) := by
    rw [roundDouble_eval _ 6 7107243161944063] <;> norm_num [abs_lt]
  refine ⟨?_, by norm_num⟩
  unfold litBlend litSum
  rw [ha, ht1, hom, ht2, hs]
  unfold castToByte
  have hfl : ⌊(7107243161944063 * 2 ^ (-46 : ℤ) : ℚ)⌋ = 100 := by
    rw [Int.floor_eq_iff]
    norm_num
  rw [if_pos (by positivity), hfl]
  rfl

/-! ## C5: which sprite pixel is blended -/

/-- C5: `draw_lit_sprite` does not blend sprite pixel `(i, j)` into destination
`(x + i, y + j)`.  With the sprite `[pink, black]` at `(0, 0)` and full
intensity the destination pixel `(1, 0)` keeps `0xFF1E140A`, because column 1
is decided by sprite pixel `(0, 0)` again; and with the sprite `[black, black]`
at `(-1, 0)` the destination pixel `(0, 0)`, under sprite pixel `(1, 0)`, is
not written at all.  The blend of black with the old destination at full
intensity, which the claim asks for in both places, is `0xFF000000`. -/
theorem draw_lit_sprite_wrong_source_pixel :
    (draw_lit_sprite litDest litSprite 0 0 255).map (fun b => b.owner.pix 1 0)
        = .ok 0xFF1E140A ∧
      (draw_lit_sprite litDest blackSprite (-1) 0 255).map (fun b => b.owner.pix 0 0)
        = .ok 0xFF1E140A ∧
      format8888.RGBToColor (litBlend (litAlpha (255 : Nat)) 0 10)
        (litBlend (litAlpha (255 : Nat)) 0 20) (litBlend (litAlpha (255 : Nat)) 0 30)
        = 0xFF000000 := by
  refine ⟨by decide, by decide, ?_⟩
  have hz : ∀ d : Nat, d ≤ 255 → litBlend (litAlpha (255 : Nat)) 0 d = 0 := by
    intro d hd
    rcases castToByte_litSum 255 0 d (le_refl _) (by decide) hd with h | ⟨_, h⟩
    · rw [litBlend, h]; simp
    · simp at h
  rw [hz 10 (by decide), hz 20 (by decide), hz 30 (by decide)]
  decide

/-! ## C7: frame of the lit sprite -/

/-- The fuel of the inner loop is only a bound: once it covers the columns left
(`sprite.w <= xCtr + fuel`), more fuel gives the same surface. -/
theorem litRow_fuel (bmp sprite : BITMAP) (alpha : ℚ) (x yp yCtr : Int) (extra : Nat) :
    ∀ (fuel : Nat) (xCtr : Int) (dest : ManagedSurface), (sprite.w : Int) ≤ xCtr + fuel →
      litRow bmp sprite alpha x yp yCtr (fuel + extra) xCtr dest
        = litRow bmp sprite alpha x yp yCtr fuel xCtr dest := by
  intro fuel
  induction fuel with
  | zero =>
    intro xCtr dest h
    cases extra with
    | zero => rfl
    | succ e =>
      rw [Nat.zero_add]
      unfold litRow
      rw [if_neg (by intro hc; simp at h; omega)]
  | succ n ih =>
    intro xCtr dest h
    rw [Nat.add_right_comm]
    unfold litRow
    split
    · apply ih
      push_cast at h
      omega
    · rfl

/-- The fuel of the outer loop is only a bound as well. -/
theorem litRows_fuel (bmp sprite : BITMAP) (alpha : ℚ) (x y : Int) (extra : Nat) :
    ∀ (fuel : Nat) (yCtr : Int) (dest : ManagedSurface), (sprite.h : Int) ≤ yCtr + fuel →
      litRows bmp sprite alpha x y (fuel + extra) yCtr dest
        = litRows bmp sprite alpha x y fuel yCtr dest := by
  intro fuel
  induction fuel with
  | zero =>
    intro yCtr dest h
    cases extra with
    | zero => rfl
    | succ e =>
      rw [Nat.zero_add]
      unfold litRows
      rw [if_neg (by intro hc; simp at h; omega)]
  | succ n ih =>
    intro yCtr dest h
    rw [Nat.add_right_comm]
    unfold litRows
    split
    · apply ih
      push_cast at h
      omega
    · rfl

theorem store_pix_other (surf : ManagedSurface) (k : Nat) (x y px py c : Int)
    (hne : ¬ (px = x ∧ py = y)) : (surf.store k x y c).pix px py = surf.pix px py := by
  simp [ManagedSurface.store, hne]

theorem litPixel_pix_other (bmp sprite : BITMAP) (alpha : ℚ) (yCtr xp yp px py : Int)
    (dest : ManagedSurface) (hne : ¬ (px = xp ∧ py = yp)) :
    (litPixel bmp sprite alpha yCtr xp yp dest).pix px py = dest.pix px py := by
  unfold litPixel
  dsimp only
  split
  · rfl
  · exact store_pix_other _ _ _ _ _ _ _ hne

theorem litPixel_dims (bmp sprite : BITMAP) (alpha : ℚ) (yCtr xp yp : Int)
    (dest : ManagedSurface) :
    (litPixel bmp sprite alpha yCtr xp yp dest).w = dest.w ∧
      (litPixel bmp sprite alpha yCtr xp yp dest).h = dest.h ∧
      (litPixel bmp sprite alpha yCtr xp yp dest).format = dest.format := by
  unfold litPixel
  dsimp only
  split
  · exact ⟨rfl, rfl, rfl⟩
  · exact ⟨rfl, rfl, rfl⟩

theorem litRow_frame (bmp sprite : BITMAP) (alpha : ℚ) (x yp yCtr px py : Int) :
    ∀ (fuel : Nat) (xCtr : Int) (dest : ManagedSurface),
      ¬ (py = yp ∧ 0 ≤ x ∧ x + xCtr ≤ px ∧ px < x + sprite.w ∧ px < bmp.w) →
      (litRow bmp sprite alpha x yp yCtr fuel xCtr dest).pix px py = dest.pix px py := by
  intro fuel
  induction fuel with
  | zero => intro xCtr dest _; rfl
  | succ n ih =>
    intro xCtr dest hout
    unfold litRow
    split
    · rename_i hcond
      rw [ih (xCtr + 1) _ (by intro h; apply hout; omega)]
      split
      · rfl
      · rename_i hx
        apply litPixel_pix_other
        intro h
        apply hout
        omega
    · rfl

theorem litRow_dims (bmp sprite : BITMAP) (alpha : ℚ) (x yp yCtr : Int) :
    ∀ (fuel : Nat) (xCtr : Int) (dest : ManagedSurface),
      (litRow bmp sprite alpha x yp yCtr fuel xCtr dest).w = dest.w ∧
        (litRow bmp sprite alpha x yp yCtr fuel xCtr dest).h = dest.h ∧
        (litRow bmp sprite alpha x yp yCtr fuel xCtr dest).format = dest.format := by
  intro fuel
  induction fuel with
  | zero => intro xCtr dest; exact ⟨rfl, rfl, rfl⟩
  | succ n ih =>
    intro xCtr dest
    unfold litRow
    split
    · obtain ⟨h1, h2, h3⟩ := ih (xCtr + 1)
        (if x < 0 ∨ x ≥ bmp.w then dest else litPixel bmp sprite alpha yCtr (x + xCtr) yp dest)
      rw [h1, h2, h3]
      split
      · exact ⟨rfl, rfl, rfl⟩
      · exact litPixel_dims _ _ _ _ _ _ _
    · exact ⟨rfl, rfl, rfl⟩

theorem litRows_frame (bmp sprite : BITMAP) (alpha : ℚ) (x y px py : Int) :
    ∀ (fuel : Nat) (yCtr : Int) (dest : ManagedSurface),
      ¬ (y + yCtr ≤ py ∧ py < y + sprite.h ∧ py < bmp.h ∧ 0 ≤ py ∧
          0 ≤ x ∧ x ≤ px ∧ px < x + sprite.w ∧ px < bmp.w) →
      (litRows bmp sprite alpha x y fuel yCtr dest).pix px py = dest.pix px py := by
  intro fuel
  induction fuel with
  | zero => intro yCtr dest _; rfl
  | succ n ih =>
    intro yCtr dest hout
    unfold litRows
    split
    · rw [ih (yCtr + 1) _ (by intro h; apply hout; omega)]
      split
      · rfl
      · apply litRow_frame
        intro h
        apply hout
        omega
    · rfl

theorem litRows_dims (bmp sprite : BITMAP) (alpha : ℚ) (x y : Int) :
    ∀ (fuel : Nat) (yCtr : Int) (dest : ManagedSurface),
      (litRows bmp sprite alpha x y fuel yCtr dest).w = dest.w ∧
        (litRows bmp sprite alpha x y fuel yCtr dest).h = dest.h ∧
        (litRows bmp sprite alpha x y fuel yCtr dest).format = dest.format := by
  intro fuel
  induction fuel with
  | zero => intro yCtr dest; exact ⟨rfl, rfl, rfl⟩
  | succ n ih =>
    intro yCtr dest
    unfold litRows
    split
    · obtain ⟨h1, h2, h3⟩ := ih (yCtr + 1)
        (if y + yCtr < 0 then dest
          else litRow bmp sprite alpha x (y + yCtr) yCtr sprite.w 0 dest)
      rw [h1, h2, h3]
      split
      · exact ⟨rfl, rfl, rfl⟩
      · exact litRow_dims _ _ _ _ _ _ _ _ _
    · exact ⟨rfl, rfl, rfl⟩

/-- C7: on 4-byte bitmaps `draw_lit_sprite` returns, the destination keeps its
size and format, and every cell `(px, py)` outside the overlap of the placed
sprite rectangle `[x, x + sprite.w) x [y, y + sprite.h)` with the destination
bounds, cells with a negative coordinate or beyond the bounds included, holds
the value it held before; so `getpixel` is unchanged there. -/
theorem draw_lit_sprite_frame (bmp sprite : BITMAP) (x y color : Int)
    (hfmt : sprite.format.bytesPerPixel = 4 ∧ bmp.format.bytesPerPixel = 4) :
    ∃ out, draw_lit_sprite bmp sprite x y color = .ok out ∧
      out.owner.w = bmp.owner.w ∧ out.owner.h = bmp.owner.h ∧
      out.owner.format = bmp.owner.format ∧
      ∀ px py, ¬ inOverlap bmp sprite x y px py →
        out.owner.pix px py = bmp.owner.pix px py ∧ getpixel out px py = getpixel bmp px py := by
  refine ⟨bmp.withOwner (litRows bmp sprite (litAlpha color) x y sprite.h 0 bmp.owner), ?_, ?_⟩
  · unfold draw_lit_sprite
    rw [if_pos hfmt]
  · obtain ⟨h1, h2, h3⟩ := litRows_dims bmp sprite (litAlpha color) x y sprite.h 0 bmp.owner
    refine ⟨h1, h2, h3, ?_⟩
    intro px py hout
    have hp : (litRows bmp sprite (litAlpha color) x y sprite.h 0 bmp.owner).pix px py
        = bmp.owner.pix px py := by
      apply litRows_frame
      intro h
      apply hout
      unfold inOverlap
      omega
    refine ⟨hp, ?_⟩
    simp only [getpixel, ManagedSurface.load, BITMAP.withOwner, h1, h2, h3, hp]

/-- C7 witness: the 2x1 black sprite placed at `(-1, 0)` on the 2x1
destination. -/
theorem draw_lit_sprite_frame_witness :
    ∃ out, draw_lit_sprite litDest blackSprite (-1) 0 128 = .ok out ∧
      out.owner.w = litDest.owner.w ∧ out.owner.h = litDest.owner.h ∧
      out.owner.format = litDest.owner.format ∧
      ∀ px py, ¬ inOverlap litDest blackSprite (-1) 0 px py →
        out.owner.pix px py = litDest.owner.pix px py ∧
          getpixel out px py = getpixel litDest px py :=
  draw_lit_sprite_frame litDest blackSprite (-1) 0 128 (by decide)

/-! ## C6: blend arithmetic -/

/-- C6 (as amended): for an intensity and channel values in `0..255`, a channel
written by `draw_lit_sprite` is the `double` value of
`src * alpha + dest * (1 - alpha)` truncated toward zero: with the exact value
`E = (src * color + dest * (255 - color)) / 255` it is `floor E`, except that it
may be `E - 1` when `E` is an integer.  The pixel stored by the loop body packs
the three blended channels of `colorToRGB` of the source pixel, so the source's
alpha channel does not enter. -/
theorem lit_blend_truncates (bmp sprite : BITMAP) (color src dst : Nat) (yCtr xp yp : Int)
    (dest : ManagedSurface) (hc : color ≤ 255) (hs : src ≤ 255) (hd : dst ≤ 255) :
    (litBlend (litAlpha color) src dst = (src * color + dst * (255 - color)) / 255 ∨
      ((src * color + dst * (255 - color)) % 255 = 0 ∧
        litBlend (litAlpha color) src dst + 1 = (src * color + dst * (255 - color)) / 255)) ∧
    (litPixel bmp sprite (litAlpha color) yCtr xp yp dest = dest ∨
      (litPixel bmp sprite (litAlpha color) yCtr xp yp dest).pix xp yp =
        truncTo 4 (bmp.format.RGBToColor
          (litBlend (litAlpha color)
            (sprite.format.colorToRGB (sprite.owner.load 4 0 yCtr)).1
            (bmp.format.colorToRGB (dest.load 4 xp yp)).1)
          (litBlend (litAlpha color)
            (sprite.format.colorToRGB (sprite.owner.load 4 0 yCtr)).2.1
            (bmp.format.colorToRGB (dest.load 4 xp yp)).2.1)
          (litBlend (litAlpha color)
            (sprite.format.colorToRGB (sprite.owner.load 4 0 yCtr)).2.2
            (bmp.format.colorToRGB (dest.load 4 xp yp)).2.2) : Nat)) := by
  refine ⟨castToByte_litSum color src dst hc hs hd, ?_⟩
  unfold litPixel
  dsimp only
  split
  · left; rfl
  · right
    simp [ManagedSurface.store, PixelFormat.colorToARGB]

/-- C6 witness: intensity 128, source channel 200, destination channel 100 on
the 2x1 bitmaps above. -/
theorem lit_blend_truncates_witness :
    (litBlend (litAlpha (128 : Nat)) 200 100 = (200 * 128 + 100 * (255 - 128)) / 255 ∨
      ((200 * 128 + 100 * (255 - 128)) % 255 = 0 ∧
        litBlend (litAlpha (128 : Nat)) 200 100 + 1 = (200 * 128 + 100 * (255 - 128)) / 255)) ∧
    (litPixel litDest blackSprite (litAlpha (128 : Nat)) 0 0 0 litDest.owner = litDest.owner ∨
      (litPixel litDest blackSprite (litAlpha (128 : Nat)) 0 0 0 litDest.owner).pix 0 0 =
        truncTo 4 (litDest.format.RGBToColor
          (litBlend (litAlpha (128 : Nat))
            (blackSprite.format.colorToRGB (blackSprite.owner.load 4 0 0)).1
            (litDest.format.colorToRGB (litDest.owner.load 4 0 0)).1)
          (litBlend (litAlpha (128 : Nat))
            (blackSprite.format.colorToRGB (blackSprite.owner.load 4 0 0)).2.1
            (litDest.format.colorToRGB (litDest.owner.load 4 0 0)).2.1)
          (litBlend (litAlpha (128 : Nat))
            (blackSprite.format.colorToRGB (blackSprite.owner.load 4 0 0)).2.2
            (litDest.format.colorToRGB (litDest.owner.load 4 0 0)).2.2) : Nat)) :=
  lit_blend_truncates litDest blackSprite 128 200 100 0 0 0 litDest.owner
    (by decide) (by decide) (by decide)

/-- C6 counterexample: at intensity 128, source channel 1 and destination
channel 0 the exact blend is `128 / 255`, which rounds to 1, but the channel
written is 0. -/
theorem lit_blend_not_rounded :
    litBlend (litAlpha (128 : Nat)) 1 0 = 0 ∧
      round ((1 : ℚ) * (128 / 255) + 0 * (1 - 128 / 255)) = 1 := by
  constructor
  · rcases castToByte_litSum 128 1 0 (by decide) (by decide) (by decide) with h | ⟨h, _⟩
    · exact h
    · exact absurd h (by decide)
  · rw [round_eq, Int.floor_eq_iff]
    norm_num

/-! ## Filled circle: the loop and its spans -/

theorem painted_refl (color : Int) (surf : ManagedSurface) :
    Painted color surf surf (fun _ _ => False) :=
  ⟨rfl, rfl, rfl, fun _ _ => ⟨fun h => absurd h.1 id, fun _ => rfl⟩⟩

theorem painted_hLine (color : Int) (surf : ManagedSurface) (a y b : Int) :
    Painted color surf (surf.hLine a y b color) (fun px py => py = y ∧ a ≤ px ∧ px ≤ b) := by
  refine ⟨rfl, rfl, rfl, fun px py => ⟨fun h => ?_, fun h => ?_⟩⟩
  · obtain ⟨⟨h1, h2, h3⟩, h4, h5, h6, h7⟩ := h
    simp only [ManagedSurface.hLine]
    rw [if_pos ⟨h1, h2, h3, h4, h5, h6, h7⟩]
  · simp only [ManagedSurface.hLine]
    rw [if_neg]
    intro hc
    exact h ⟨⟨hc.1, hc.2.1, hc.2.2.1⟩, hc.2.2.2⟩

theorem painted_trans (color : Int) (s0 s1 s2 : ManagedSurface) (P Q : Int → Int → Prop)
    (h1 : Painted color s0 s1 P) (h2 : Painted color s1 s2 Q) :
    Painted color s0 s2 (fun px py => P px py ∨ Q px py) := by
  obtain ⟨w1, hh1, f1, p1⟩ := h1
  obtain ⟨w2, hh2, f2, p2⟩ := h2
  refine ⟨w2.trans w1, hh2.trans hh1, f2.trans f1, fun px py => ?_⟩
  have hins : s1.inside px py ↔ s0.inside px py := by
    unfold ManagedSurface.inside; rw [w1, hh1]
  by_cases hQ : Q px py ∧ s1.inside px py
  · constructor
    · intro _
      rw [(p2 px py).1 hQ, f1]
    · intro hn
      exact absurd ⟨Or.inr hQ.1, hins.1 hQ.2⟩ hn
  · rw [(p2 px py).2 hQ]
    constructor
    · intro h
      rcases h.1 with hP | hQ'
      · exact (p1 px py).1 ⟨hP, h.2⟩
      · exact absurd ⟨hQ', hins.2 h.2⟩ hQ
    · intro hn
      apply (p1 px py).2
      intro hP
      exact hn ⟨Or.inl hP.1, hP.2⟩

theorem painted_congr (color : Int) (s0 s1 : ManagedSurface) (P Q : Int → Int → Prop)
    (hPQ : ∀ px py, P px py ↔ Q px py) (h : Painted color s0 s1 P) : Painted color s0 s1 Q := by
  obtain ⟨w1, hh1, f1, p1⟩ := h
  refine ⟨w1, hh1, f1, fun px py => ?_⟩
  rw [← hPQ px py]
  exact p1 px py

/-- A conditional `hLine` paints its span when the condition holds. -/
theorem painted_hLine_if (color : Int) (surf : ManagedSurface) (c : Prop) [Decidable c]
    (a y b : Int) :
    Painted color surf (if c then surf.hLine a y b color else surf)
      (fun px py => c ∧ py = y ∧ a ≤ px ∧ px ≤ b) := by
  by_cases hc : c
  · rw [if_pos hc]
    exact painted_congr _ _ _ _ _ (fun px py => by simp [hc]) (painted_hLine color surf a y b)
  · rw [if_neg hc]
    exact painted_congr _ _ _ _ _ (fun px py => by simp [hc]) (painted_refl color surf)

theorem circleBody_eq (surf : ManagedSurface) (x y color : Int) (st : CircleState) :
    circleBody surf x y color st =
      (fun s3 : ManagedSurface =>
        if ¬ st.df < 0 ∧ st.cx ≠ st.cy ∧ st.cy ≠ 0
          then s3.hLine (x - st.cx) (y + st.cy) (x + st.cx) color else s3)
      ((fun s2 : ManagedSurface =>
        if ¬ st.df < 0 ∧ st.cx ≠ st.cy
          then s2.hLine (x - st.cx) (y - st.cy) (x + st.cx) color else s2)
      ((fun s1 : ManagedSurface =>
        if st.cx ≠ 0 then s1.hLine (x - st.cy) (y + st.cx) (x + st.cy) color else s1)
      (surf.hLine (x - st.cy) (y - st.cx) (x + st.cy) color))) := by
  unfold circleBody
  dsimp only
  by_cases h1 : st.df < 0
  · simp [h1]
  · by_cases h2 : st.cx = st.cy
    · simp [h1, h2]
    · by_cases h3 : st.cy = 0
      · simp [h1, h2, h3]
      · simp [h1, h2, h3]

theorem circleBody_painted (surf : ManagedSurface) (x y color : Int) (st : CircleState) :
    Painted color surf (circleBody surf x y color st) (stepCovers x y st) := by
  rw [circleBody_eq]
  have p1 := painted_hLine color surf (x - st.cy) (y - st.cx) (x + st.cy)
  have p2 := painted_hLine_if color (surf.hLine (x - st.cy) (y - st.cx) (x + st.cy) color)
    (st.cx ≠ 0) (x - st.cy) (y + st.cx) (x + st.cy)
  have p12 := painted_trans _ _ _ _ _ _ p1 p2
  have p123 := painted_trans _ _ _ _ _ _ p12
    (painted_hLine_if color _ (¬ st.df < 0 ∧ st.cx ≠ st.cy) (x - st.cx) (y - st.cy) (x + st.cx))
  have p := painted_trans _ _ _ _ _ _ p123
    (painted_hLine_if color _ (¬ st.df < 0 ∧ st.cx ≠ st.cy ∧ st.cy ≠ 0)
      (x - st.cx) (y + st.cy) (x + st.cx))
  refine painted_congr _ _ _ _ _ (fun px py => ?_) p
  unfold stepCovers
  constructor <;> intro h <;> omega

theorem circlefillLoop_painted (x y color : Int) :
    ∀ (fuel : Nat) (st : CircleState) (surf out : ManagedSurface),
      circlefillLoop x y color fuel st surf = some out →
      Painted color surf out (loopCovers x y fuel st) := by
  intro fuel
  induction fuel with
  | zero => intro st surf out h; simp [circlefillLoop] at h
  | succ n ih =>
    intro st surf out h
    unfold circlefillLoop at h
    have hb := circleBody_painted surf x y color st
    by_cases hc : (circleNext st).cx ≤ (circleNext st).cy
    · rw [if_pos hc] at h
      have h2 := ih _ _ _ h
      refine painted_congr _ _ _ _ _ (fun px py => ?_) (painted_trans _ _ _ _ _ _ hb h2)
      show _ ↔ stepCovers x y st px py ∨ _
      simp [hc]
    · rw [if_neg hc] at h
      cases h
      refine painted_congr _ _ _ _ _ (fun px py => ?_) hb
      show _ ↔ stepCovers x y st px py ∨ _
      simp [hc]

theorem circleNext_cx (st : CircleState) : (circleNext st).cx = st.cx + 1 := by
  unfold circleNext; split <;> rfl

theorem circleNext_cy_le (st : CircleState) : (circleNext st).cy ≤ st.cy := by
  unfold circleNext; split <;> simp

theorem circlefillLoop_terminates (x y color : Int) :
    ∀ (fuel : Nat) (st : CircleState) (surf : ManagedSurface),
      0 < fuel → st.cy - st.cx < fuel →
      ∃ out, circlefillLoop x y color fuel st surf = some out := by
  intro fuel
  induction fuel with
  | zero => intro st surf h; exact absurd h (by decide)
  | succ n ih =>
    intro st surf _ h
    unfold circlefillLoop
    by_cases hc : (circleNext st).cx ≤ (circleNext st).cy
    · rw [if_pos hc]
      have h1 := circleNext_cx st
      have h2 := circleNext_cy_le st
      push_cast at h
      apply ih
      · omega
      · omega
    · rw [if_neg hc]
      exact ⟨_, rfl⟩

theorem circleInv_init (r : Int) (hr : 0 ≤ r) : CircleInv r (circleInit r) := by
  unfold CircleInv circleInit
  dsimp only
  refine ⟨le_refl _, hr, le_refl _, by ring, by ring, by ring, ?_, ?_⟩ <;> linarith

theorem circleInv_next (r : Int) (st : CircleState) (hinv : CircleInv r st)
    (hc : (circleNext st).cx ≤ (circleNext st).cy) : CircleInv r (circleNext st) := by
  obtain ⟨h0, h1, h2, he, hse, hdf, hA, hB⟩ := hinv
  unfold circleNext at hc ⊢
  unfold CircleInv
  by_cases hneg : st.df < 0
  · rw [if_pos hneg] at hc ⊢
    dsimp only at hc ⊢
    refine ⟨by omega, hc, h2, by omega, by omega, ?_, ?_, ?_⟩
    · rw [hdf, he]; ring
    · linarith
    · nlinarith
  · rw [if_neg hneg] at hc ⊢
    dsimp only at hc ⊢
    refine ⟨by omega, hc, by omega, by omega, by omega, ?_, ?_, ?_⟩
    · rw [hdf, hse]; ring
    · nlinarith
    · nlinarith

/-- A point of the disc in row `cx` lies on the span `[-cy, cy]`. -/
theorem span_first (r cx cy a : Int) (hcy : 0 ≤ cy)
    (hB : r * r ≤ cx * cx + cy * cy + cy) (hin : a * a + cx * cx ≤ r * r) : a ≤ cy := by
  by_contra hlt
  push_neg at hlt
  have h1 : cy + 1 ≤ a := hlt
  nlinarith

/-- A point of the disc in row `cy`, when the decision variable is non negative,
lies on the span `[-cx, cx]`. -/
theorem span_second (r cx cy a : Int) (hcx : 0 ≤ cx) (hcy : 0 < cy)
    (hdf : 0 ≤ (cx + 1) * (cx + 1) + cy * cy - cy - r * r) (hin : a * a + cy * cy ≤ r * r) :
    a ≤ cx := by
  by_contra hlt
  push_neg at hlt
  have h1 : cx + 1 ≤ a := hlt
  nlinarith

theorem circleNext_neg (st : CircleState) (h : st.df < 0) :
    circleNext st = ⟨st.cx + 1, st.cy, st.df + st.d_e, st.d_e + 2, st.d_se + 2⟩ := by
  unfold circleNext; rw [if_pos h]

theorem circleNext_nonneg (st : CircleState) (h : ¬ st.df < 0) :
    circleNext st = ⟨st.cx + 1, st.cy - 1, st.df + st.d_se, st.d_e + 2, st.d_se + 4⟩ := by
  unfold circleNext; rw [if_neg h]

/-- Coverage by the rest of the loop: from a state satisfying the invariant,
every point of the disc whose row distance `|b|` lies in `cx..cy` is on a span
drawn from here on. -/
theorem loopCovers_of_disc (x y r : Int) :
    ∀ (fuel : Nat) (st : CircleState), CircleInv r st → st.cy - st.cx < fuel →
      ∀ a b : Int, a * a + b * b ≤ r * r →
        ((st.cx ≤ b ∧ b ≤ st.cy) ∨ (st.cx ≤ -b ∧ -b ≤ st.cy)) →
        loopCovers x y fuel st (x + a) (y + b) := by
  intro fuel
  induction fuel with
  | zero =>
    intro st hinv hf
    obtain ⟨_, h1, _⟩ := hinv
    simp at hf
    omega
  | succ n ih =>
    intro st hinv hf a b hin hrow
    have hinv' := hinv
    obtain ⟨h0, h1, h2, he, hse, hdf, hA, hB⟩ := hinv
    push_cast at hf
    unfold loopCovers
    by_cases hbx : b = st.cx ∨ b = -st.cx
    · -- the row of the first pair of spans
      left
      have hbb : b * b = st.cx * st.cx := by
        rcases hbx with h | h <;> (subst h; ring)
      have hcy0 : 0 ≤ st.cy := le_trans h0 h1
      have ha1 : a ≤ st.cy := span_first r st.cx st.cy a hcy0 hB (by rw [← hbb]; exact hin)
      have ha2 : -a ≤ st.cy :=
        span_first r st.cx st.cy (-a) hcy0 hB (by rw [← hbb]; linarith)
      unfold stepCovers
      left
      omega
    · by_cases hsec : ¬ st.df < 0 ∧ (b = st.cy ∨ b = -st.cy)
      · -- the row of the second pair of spans
        left
        obtain ⟨hneg, hby⟩ := hsec
        have hne : st.cx ≠ st.cy := by
          intro h; apply hbx; rw [h]; exact hby
        have hbb : b * b = st.cy * st.cy := by
          rcases hby with h | h <;> (subst h; ring)
        have hcy : 0 < st.cy := by omega
        have hdf0 : 0 ≤ (st.cx + 1) * (st.cx + 1) + st.cy * st.cy - st.cy - r * r := by
          rw [← hdf]; omega
        have ha1 : a ≤ st.cx :=
          span_second r st.cx st.cy a h0 hcy hdf0 (by rw [← hbb]; exact hin)
        have ha2 : -a ≤ st.cx :=
          span_second r st.cx st.cy (-a) h0 hcy hdf0 (by rw [← hbb]; linarith)
        unfold stepCovers
        right
        omega
      · -- a later pass
        right
        have hcont : (circleNext st).cx ≤ (circleNext st).cy ∧
            (circleNext st).cy - (circleNext st).cx < n ∧
            (((circleNext st).cx ≤ b ∧ b ≤ (circleNext st).cy) ∨
              ((circleNext st).cx ≤ -b ∧ -b ≤ (circleNext st).cy)) := by
          by_cases hneg : st.df < 0
          · rw [circleNext_neg st hneg]
            dsimp only
            omega
          · rw [circleNext_nonneg st hneg]
            dsimp only
            omega
        exact ⟨hcont.1, ih _ (circleInv_next r st hinv' hcont.1) hcont.2.1 a b hin hcont.2.2⟩

/-- Containment: a pixel on a span drawn from a state satisfying the invariant
lies within `r + 1/2` of the centre, in rows and columns `-r..r`. -/
theorem disc_of_loopCovers (x y r : Int) :
    ∀ (fuel : Nat) (st : CircleState), CircleInv r st →
      ∀ a b : Int, loopCovers x y fuel st (x + a) (y + b) →
        a * a + b * b ≤ r * r + r ∧ -r ≤ a ∧ a ≤ r ∧ -r ≤ b ∧ b ≤ r := by
  intro fuel
  induction fuel with
  | zero => intro st _ a b h; exact absurd h id
  | succ n ih =>
    intro st hinv a b h
    unfold loopCovers at h
    rcases h with h | ⟨hc, h⟩
    · obtain ⟨h0, h1, h2, he, hse, hdf, hA, hB⟩ := hinv
      have hgen : ∀ u v : Int, -st.cy ≤ u → u ≤ st.cy → (v = st.cx ∨ v = -st.cx) →
          u * u + v * v ≤ r * r + r := by
        intro u v hu1 hu2 hv
        have hvv : v * v = st.cx * st.cx := by
          rcases hv with h | h <;> (subst h; ring)
        have huu : u * u ≤ st.cy * st.cy := by nlinarith
        rw [hvv]
        linarith
      unfold stepCovers at h
      rcases h with ⟨hrow, hl, hr⟩ | ⟨_, _, hrow, hl, hr⟩
      · refine ⟨hgen a b (by omega) (by omega) (by omega), ?_, ?_, ?_, ?_⟩ <;> omega
      · have haa : a * a ≤ st.cx * st.cx := by nlinarith
        have hbb : b * b = st.cy * st.cy := by
          have hb : b = st.cy ∨ b = -st.cy := by omega
          rcases hb with h | h <;> (subst h; ring)
        refine ⟨by linarith, ?_, ?_, ?_, ?_⟩ <;> omega
    · exact ih _ (circleInv_next r st hinv hc) a b h

theorem stepCovers_mirror (x y : Int) (st : CircleState) (px py : Int) :
    (stepCovers x y st px py ↔ stepCovers x y st (2 * x - px) py) ∧
      (stepCovers x y st px py ↔ stepCovers x y st px (2 * y - py)) := by
  unfold stepCovers
  refine ⟨⟨?_, ?_⟩, ⟨?_, ?_⟩⟩ <;> intro h <;> omega

theorem loopCovers_mirror (x y : Int) :
    ∀ (fuel : Nat) (st : CircleState) (px py : Int),
      (loopCovers x y fuel st px py ↔ loopCovers x y fuel st (2 * x - px) py) ∧
        (loopCovers x y fuel st px py ↔ loopCovers x y fuel st px (2 * y - py)) := by
  intro fuel
  induction fuel with
  | zero => intro st px py; exact ⟨Iff.rfl, Iff.rfl⟩
  | succ n ih =>
    intro st px py
    unfold loopCovers
    rw [← (stepCovers_mirror x y st px py).1, ← (stepCovers_mirror x y st px py).2,
      ← (ih (circleNext st) px py).1, ← (ih (circleNext st) px py).2]
    exact ⟨Iff.rfl, Iff.rfl⟩

/-- The call `circlefill` returns for every radius, and its result is the surface
painted on the set `circleFilled`. -/
theorem circlefill_painted (bmp : BITMAP) (x y r color : Int) :
    ∃ out, bmp.circlefill x y r color = some out ∧
      Painted color bmp.owner out.owner (circleFilled x y r) := by
  obtain ⟨s, hs⟩ := circlefillLoop_terminates x y color (r.toNat + 1) (circleInit r) bmp.owner
    (Nat.succ_pos _) (by simp only [circleInit]; push_cast; omega)
  refine ⟨bmp.withOwner s, ?_, ?_⟩
  · unfold BITMAP.circlefill
    rw [hs]
    rfl
  · exact circlefillLoop_painted x y color _ _ _ _ hs

theorem getpixel_of_stored (bmp : BITMAP) (x y c : Int) (hin : bmp.owner.inside x y)
    (hp : bmp.owner.pix x y = truncTo bmp.owner.format.bytesPerPixel c)
    (hc : representable bmp.owner.format.bytesPerPixel c) : getpixel bmp x y = .ok c := by
  have hb : ¬ (x < 0 ∨ y < 0 ∨ x ≥ bmp.owner.w ∨ y ≥ bmp.owner.h) := by
    unfold ManagedSurface.inside at hin; omega
  unfold getpixel
  rw [if_neg hb]
  rcases hc with ⟨hk, h0, h1⟩ | ⟨hk, h0, h1⟩ | ⟨hk, h0, h1⟩
  · rw [hk] at hp ⊢
    simp only [ManagedSurface.load, hp, truncTo_one]
    congr 1
    omega
  · rw [hk] at hp ⊢
    simp only [ManagedSurface.load, hp, truncTo_two]
    congr 1
    omega
  · rw [hk] at hp ⊢
    simp only [ManagedSurface.load, hp, truncTo_four, toInt32]
    congr 1
    split <;> omega

theorem getpixel_congr (b1 b2 : BITMAP) (x y : Int) (hw : b1.owner.w = b2.owner.w)
    (hh : b1.owner.h = b2.owner.h) (hf : b1.owner.format = b2.owner.format)
    (hp : b1.owner.pix x y = b2.owner.pix x y) : getpixel b1 x y = getpixel b2 x y := by
  simp only [getpixel, ManagedSurface.load, hw, hh, hf, hp]

/-! ## C8: coverage of the filled circle -/

/-- C8: for every centre `(x, y)`, radius `r >= 0` and colour, `circlefill`
returns and every pixel `(x + dx, y + dy)` of the surface with
`dx*dx + dy*dy <= r*r` then holds the colour (its low bits in the width of the
format, so `getpixel` returns the colour itself when it is representable). -/
theorem circlefill_covers_disc (bmp : BITMAP) (x y r color dx dy : Int) (hr : 0 ≤ r)
    (hin : dx * dx + dy * dy ≤ r * r) (hb : bmp.owner.inside (x + dx) (y + dy)) :
    ∃ out, bmp.circlefill x y r color = some out ∧
      out.owner.pix (x + dx) (y + dy) = truncTo bmp.owner.format.bytesPerPixel color ∧
      (representable bmp.owner.format.bytesPerPixel color →
        getpixel out (x + dx) (y + dy) = .ok color) := by
  obtain ⟨out, hout, hw, hh, hf, hp⟩ := circlefill_painted bmp x y r color
  have hcov : circleFilled x y r (x + dx) (y + dy) := by
    unfold circleFilled
    apply loopCovers_of_disc x y r _ _ (circleInv_init r hr) _ dx dy hin
    · simp only [circleInit]
      have h1 : dy * dy ≤ r * r := by nlinarith [mul_self_nonneg dx]
      have h2 : dy ≤ r := by nlinarith
      have h3 : -dy ≤ r := by nlinarith
      omega
    · simp only [circleInit]; push_cast; omega
  have hpix := (hp (x + dx) (y + dy)).1 ⟨hcov, hb⟩
  refine ⟨out, hout, hpix, fun hc => ?_⟩
  apply getpixel_of_stored
  · unfold ManagedSurface.inside at hb ⊢; rw [hw, hh]; exact hb
  · rw [hf]; exact hpix
  · rw [hf]; exact hc

/-- C8 witness: `circlefill(5, 5, 3, C2)` on a 10x10 surface of 4 bytes per
pixel colours the boundary pixel `(5, 2)`. -/
theorem circlefill_covers_disc_witness :
    ∃ out, (BITMAP.mk_from (ManagedSurface.blank 10 10 format8888 7)).circlefill 5 5 3 255
        = some out ∧
      out.owner.pix (5 + 0) (5 + -3) = truncTo format8888.bytesPerPixel 255 ∧
      (representable format8888.bytesPerPixel 255 → getpixel out (5 + 0) (5 + -3) = .ok 255) :=
  circlefill_covers_disc (BITMAP.mk_from (ManagedSurface.blank 10 10 format8888 7)) 5 5 3 255 0
    (-3) (by decide) (by decide) (by decide)

/-! ## C9: containment of the filled circle -/

/-- C9: for every centre `(x, y)` and radius `r >= 0`, `circlefill` returns and a
pixel `(x + dx, y + dy)` with `dx*dx + dy*dy > r*r + r` is on no span and keeps
its value; every pixel on a span lies in rows `y-r..y+r` and columns
`x-r..x+r`. -/
theorem circlefill_contained (bmp : BITMAP) (x y r color dx dy : Int) (hr : 0 ≤ r)
    (hfar : r * r + r < dx * dx + dy * dy) :
    ∃ out, bmp.circlefill x y r color = some out ∧
      ¬ circleFilled x y r (x + dx) (y + dy) ∧
      out.owner.pix (x + dx) (y + dy) = bmp.owner.pix (x + dx) (y + dy) ∧
      getpixel out (x + dx) (y + dy) = getpixel bmp (x + dx) (y + dy) ∧
      ∀ a b : Int, circleFilled x y r (x + a) (y + b) → -r ≤ a ∧ a ≤ r ∧ -r ≤ b ∧ b ≤ r := by
  obtain ⟨out, hout, hw, hh, hf, hp⟩ := circlefill_painted bmp x y r color
  have hnot : ¬ circleFilled x y r (x + dx) (y + dy) := by
    intro hc
    have := (disc_of_loopCovers x y r _ _ (circleInv_init r hr) dx dy hc).1
    omega
  have hpix := (hp (x + dx) (y + dy)).2 (fun h => hnot h.1)
  refine ⟨out, hout, hnot, hpix, getpixel_congr _ _ _ _ hw hh hf hpix, fun a b hc => ?_⟩
  exact (disc_of_loopCovers x y r _ _ (circleInv_init r hr) a b hc).2

/-- C9 witness: `circlefill(5, 5, 3, C2)` on a 10x10 surface leaves pixel
`(0, 0)` as it was. -/
theorem circlefill_contained_witness :
    ∃ out, (BITMAP.mk_from (ManagedSurface.blank 10 10 format8888 7)).circlefill 5 5 3 255
        = some out ∧
      ¬ circleFilled 5 5 3 (5 + -5) (5 + -5) ∧
      out.owner.pix (5 + -5) (5 + -5)
        = (BITMAP.mk_from (ManagedSurface.blank 10 10 format8888 7)).owner.pix (5 + -5) (5 + -5) ∧
      getpixel out (5 + -5) (5 + -5)
        = getpixel (BITMAP.mk_from (ManagedSurface.blank 10 10 format8888 7)) (5 + -5) (5 + -5) ∧
      ∀ a b : Int, circleFilled 5 5 3 (5 + a) (5 + b) → -3 ≤ a ∧ a ≤ 3 ∧ -3 ≤ b ∧ b ≤ 3 :=
  circlefill_contained (BITMAP.mk_from (ManagedSurface.blank 10 10 format8888 7)) 5 5 3 255 (-5)
    (-5) (by decide) (by decide)

/-! ## C10: symmetry of the filled circle -/

/-- C10: for every centre `(x, y)` and radius, the set of pixels on the spans
`circlefill` hands to `hLine` is closed under the reflections in the two axes
through the centre; `circlefill` returns the surface painted on exactly that
set (clipped to the surface). -/
theorem circlefill_symmetric (bmp : BITMAP) (x y r color dx dy : Int) :
    (circleFilled x y r (x + dx) (y + dy) ↔ circleFilled x y r (x - dx) (y + dy)) ∧
      (circleFilled x y r (x + dx) (y + dy) ↔ circleFilled x y r (x + dx) (y - dy)) ∧
      (circleFilled x y r (x + dx) (y + dy) ↔ circleFilled x y r (x - dx) (y - dy)) ∧
      ∃ out, bmp.circlefill x y r color = some out ∧
        Painted color bmp.owner out.owner (circleFilled x y r) := by
  have e1 : 2 * x - (x + dx) = x - dx := by ring
  have e2 : 2 * y - (y + dy) = y - dy := by ring
  have m1 := (loopCovers_mirror x y (r.toNat + 1) (circleInit r) (x + dx) (y + dy)).1
  have m2 := (loopCovers_mirror x y (r.toNat + 1) (circleInit r) (x + dx) (y + dy)).2
  have m3 := (loopCovers_mirror x y (r.toNat + 1) (circleInit r) (x - dx) (y + dy)).2
  rw [e1] at m1
  rw [e2] at m2 m3
  exact ⟨m1, m2, m1.trans m3, circlefill_painted bmp x y r color⟩

/-! ## C11: creation by depth and the depth query -/

/-- C11: `create_bitmap_ex(depth, w, h)` succeeds exactly for the depths 8, 16
and 32, and then `bitmap_color_depth` of the bitmap is that depth; for every
other depth (15 and 24 among them) it fails with `error("Invalid color
depth")`. -/
theorem create_bitmap_ex_depth (color_depth : Int) (width height : Nat) :
    (create_bitmap_ex color_depth width height).map bitmap_color_depth
        = (if color_depth = 8 ∨ color_depth = 16 ∨ color_depth = 32 then .ok color_depth
            else .error "Invalid color depth") ∧
      ((∃ bmp, create_bitmap_ex color_depth width height = .ok bmp) ↔
        (color_depth = 8 ∨ color_depth = 16 ∨ color_depth = 32)) ∧
      create_bitmap_ex 15 width height = .error "Invalid color depth" ∧
      create_bitmap_ex 24 width height = .error "Invalid color depth" := by
  refine ⟨?_, ?_, rfl, rfl⟩
  · unfold create_bitmap_ex
    by_cases h8 : color_depth = 8
    · subst h8; rfl
    · by_cases h16 : color_depth = 16
      · subst h16; rfl
      · by_cases h32 : color_depth = 32
        · subst h32; rfl
        · rw [if_neg h8, if_neg h16, if_neg h32, if_neg (by omega)]
          rfl
  · unfold create_bitmap_ex
    by_cases h8 : color_depth = 8
    · rw [if_pos h8]; exact ⟨fun _ => Or.inl h8, fun _ => ⟨_, rfl⟩⟩
    · by_cases h16 : color_depth = 16
      · rw [if_neg h8, if_pos h16]; exact ⟨fun _ => Or.inr (Or.inl h16), fun _ => ⟨_, rfl⟩⟩
      · by_cases h32 : color_depth = 32
        · rw [if_neg h8, if_neg h16, if_pos h32]
          exact ⟨fun _ => Or.inr (Or.inr h32), fun _ => ⟨_, rfl⟩⟩
        · rw [if_neg h8, if_neg h16, if_neg h32]
          constructor
          · rintro ⟨bmp, h⟩; cases h
          · intro h; omega

/-! ## C12: unsupported pixel widths -/

/-- C12: on the 2x1 bitmap of three bytes per pixel the generic `putpixel`
returns without storing (pixel `(0, 0)` still holds 0 after writing 5) and the
member `BITMAP::getpixel` returns a value, 0, where the free `getpixel` fails
with `error("Unsupported bpp")`, as do the 15- and 24-bit accessors. -/
theorem unsupported_width_not_fatal :
    (putpixel bitmap24 0 0 5).owner.pix 0 0 = 0 ∧
      getpixel (putpixel bitmap24 0 0 5) 0 0 = getpixel bitmap24 0 0 ∧
      bitmap24.getpixel 0 0 = 0 ∧
      getpixel bitmap24 0 0 = .error "Unsupported bpp" ∧
      getpixel bitmap24 2 0 = .ok (-1) ∧
      _putpixel15 bitmap24 0 0 5 = .error "Unsupported bpp" ∧
      _putpixel24 bitmap24 0 0 5 = .error "Unsupported bpp" ∧
      _getpixel15 bitmap24 0 0 = .error "Unsupported bpp" ∧
      _getpixel24 bitmap24 0 0 = .error "Unsupported bpp" :=
  ⟨by decide, by decide, by decide, by decide, by decide, rfl, rfl, rfl, rfl⟩

/-! ## C13: specialised accessors -/

/-- C13: on a surface of 1 byte per pixel `_getpixel` and `_putpixel`, on one of
2 bytes `_getpixel16` and `_putpixel16`, and on one of 4 bytes `_getpixel32` and
`_putpixel32` return the same value and leave the same bitmap as the generic
`getpixel` and `putpixel`, for every `(x, y)`, in or out of bounds, and every
colour. -/
theorem specialised_accessors_agree (b1 b2 b4 : BITMAP) (x y color : Int)
    (h1 : b1.owner.format.bytesPerPixel = 1) (h2 : b2.owner.format.bytesPerPixel = 2)
    (h4 : b4.owner.format.bytesPerPixel = 4) :
    getpixel b1 x y = .ok (_getpixel b1 x y) ∧ putpixel b1 x y color = _putpixel b1 x y color ∧
      getpixel b2 x y = .ok (_getpixel16 b2 x y) ∧
      putpixel b2 x y color = _putpixel16 b2 x y color ∧
      getpixel b4 x y = .ok (_getpixel32 b4 x y) ∧
      putpixel b4 x y color = _putpixel32 b4 x y color := by
  refine ⟨?_, ?_, ?_, ?_, ?_, ?_⟩
  · unfold getpixel _getpixel; rw [h1]; split <;> rfl
  · unfold putpixel _putpixel; rw [h1]
  · unfold getpixel _getpixel16; rw [h2]; split <;> rfl
  · unfold putpixel _putpixel16; rw [h2]
  · unfold getpixel _getpixel32; rw [h4]; split <;> rfl
  · unfold putpixel _putpixel32; rw [h4]

/-- C13 witness: blank 3x2 bitmaps of 1, 2 and 4 bytes per pixel, pixel
`(2, 1)`, colour 300. -/
theorem specialised_accessors_agree_witness :
    getpixel (BITMAP.mk_from (ManagedSurface.blank 3 2 formatCLUT8 9)) 2 1
        = .ok (_getpixel (BITMAP.mk_from (ManagedSurface.blank 3 2 formatCLUT8 9)) 2 1) ∧
      putpixel (BITMAP.mk_from (ManagedSurface.blank 3 2 formatCLUT8 9)) 2 1 300
        = _putpixel (BITMAP.mk_from (ManagedSurface.blank 3 2 formatCLUT8 9)) 2 1 300 ∧
      getpixel (BITMAP.mk_from (ManagedSurface.blank 3 2 format565 9)) 2 1
        = .ok (_getpixel16 (BITMAP.mk_from (ManagedSurface.blank 3 2 format565 9)) 2 1) ∧
      putpixel (BITMAP.mk_from (ManagedSurface.blank 3 2 format565 9)) 2 1 300
        = _putpixel16 (BITMAP.mk_from (ManagedSurface.blank 3 2 format565 9)) 2 1 300 ∧
      getpixel (BITMAP.mk_from (ManagedSurface.blank 3 2 format8888 9)) 2 1
        = .ok (_getpixel32 (BITMAP.mk_from (ManagedSurface.blank 3 2 format8888 9)) 2 1) ∧
      putpixel (BITMAP.mk_from (ManagedSurface.blank 3 2 format8888 9)) 2 1 300
        = _putpixel32 (BITMAP.mk_from (ManagedSurface.blank 3 2 format8888 9)) 2 1 300 :=
  specialised_accessors_agree (BITMAP.mk_from (ManagedSurface.blank 3 2 formatCLUT8 9))
    (BITMAP.mk_from (ManagedSurface.blank 3 2 format565 9))
    (BITMAP.mk_from (ManagedSurface.blank 3 2 format8888 9)) 2 1 300 rfl rfl rfl

/-! ## C14: clip rectangle accessors -/

/-- C14: a newly constructed bitmap on a `w x h` surface reports the clip
rectangle `(0, 0, w, h)` through `get_clip_rect`; after
`set_clip_rect(bmp, x1, y1, x2, y2)` it reports exactly `(x1, y1, x2, y2)`; and
setting a rectangle twice gives the same bitmap as setting it once. -/
theorem clip_rect_accessors (owner : ManagedSurface) (bmp : BITMAP)
    (x1 y1 x2 y2 a b c d : Int) :
    get_clip_rect (BITMAP.mk_from owner) (some a) (some b) (some c) (some d)
        = (some 0, some 0, some (owner.w : Int), some (owner.h : Int)) ∧
      get_clip_rect (set_clip_rect bmp x1 y1 x2 y2) (some a) (some b) (some c) (some d)
        = (some x1, some y1, some x2, some y2) ∧
      set_clip_rect (set_clip_rect bmp x1 y1 x2 y2) x1 y1 x2 y2
        = set_clip_rect bmp x1 y1 x2 y2 :=
  ⟨rfl, rfl, rfl⟩

/-! ## C15: the clip rectangle and the bounds -/

theorem clipInside_withOwner (bmp : BITMAP) (surf : ManagedSurface)
    (hw : surf.w = bmp.owner.w) (hh : surf.h = bmp.owner.h) (h : clipInside bmp) :
    clipInside (bmp.withOwner surf) := by
  unfold clipInside BITMAP.w BITMAP.h BITMAP.withOwner at *
  simp only [hw, hh]
  exact h

theorem circlefill_withOwner (bmp out : BITMAP) (x y radius color : Int)
    (h : bmp.circlefill x y radius color = some out) :
    ∃ surf, out = bmp.withOwner surf ∧ surf.w = bmp.owner.w ∧ surf.h = bmp.owner.h := by
  unfold BITMAP.circlefill at h
  cases hl : circlefillLoop x y color (radius.toNat + 1) (circleInit radius) bmp.owner with
  | none => rw [hl] at h; cases h
  | some surf =>
    rw [hl] at h
    have hp := circlefillLoop_painted x y color _ _ _ _ hl
    refine ⟨surf, ?_, hp.1, hp.2.1⟩
    cases h
    rfl

/-- C15 (as amended): in every state reachable from construction through the
operations of the API in which `set_clip_rect` is only called with
`0 <= x1 <= x2 <= w` and `0 <= y1 <= y2 <= h`, the clip rectangle is contained
in `[0, w] x [0, h]`. -/
theorem clip_inside_of_guarded (bmp : BITMAP) (h : Reachable clipArgsInside bmp) :
    clipInside bmp := by
  induction h with
  | construct owner =>
    unfold clipInside BITMAP.mk_from BITMAP.w BITMAP.h
    simp
  | set_clip b x1 y1 x2 y2 _ hg _ => exact hg
  | put b x y c _ ih =>
    unfold putpixel
    split
    · exact clipInside_withOwner _ _ rfl rfl ih
    · exact clipInside_withOwner _ _ rfl rfl ih
    · exact clipInside_withOwner _ _ rfl rfl ih
    · exact ih
  | put8 b x y c _ ih => exact clipInside_withOwner _ _ rfl rfl ih
  | put16 b x y c _ ih => exact clipInside_withOwner _ _ rfl rfl ih
  | put32 b x y c _ ih => exact clipInside_withOwner _ _ rfl rfl ih
  | circle b out x y r c _ hc ih =>
    obtain ⟨surf, ho, hw, hh⟩ := circlefill_withOwner b out x y r c hc
    rw [ho]
    exact clipInside_withOwner _ _ hw hh ih
  | lit b sprite out x y c _ hd ih =>
    unfold draw_lit_sprite at hd
    split at hd
    · cases hd
      obtain ⟨hw, hh, _⟩ := litRows_dims b sprite (litAlpha c) x y sprite.h 0 b.owner
      exact clipInside_withOwner _ _ hw hh ih
    · cases hd
  | blit src dest sx sy dx dy w h _ ih => exact clipInside_withOwner _ _ rfl rfl ih

/-- C15 witness: a 10x10 bitmap after `set_clip_rect(bmp, 1, 2, 3, 4)` and a
`putpixel`. -/
theorem clip_inside_of_guarded_witness :
    Reachable clipArgsInside
        (putpixel (set_clip_rect (BITMAP.mk_from (ManagedSurface.blank 10 10 format8888 0))
          1 2 3 4) 5 5 7) ∧
      clipInside
        (putpixel (set_clip_rect (BITMAP.mk_from (ManagedSurface.blank 10 10 format8888 0))
          1 2 3 4) 5 5 7) :=
  ⟨Reachable.put _ 5 5 7 (Reachable.set_clip _ 1 2 3 4 (Reachable.construct _) (by decide)),
    clip_inside_of_guarded _
      (Reachable.put _ 5 5 7 (Reachable.set_clip _ 1 2 3 4 (Reachable.construct _) (by decide)))⟩

/-- C15 counterexample: `set_clip_rect(bmp, -5, -5, 1000, 1000)` on a freshly
constructed 10x10 bitmap is a reachable state whose clip rectangle is
`(-5, -5, 1000, 1000)`, not contained in `[0, 10] x [0, 10]`. -/
theorem clip_rect_escapes_bounds :
    Reachable (fun _ _ _ _ _ => True)
        (set_clip_rect (BITMAP.mk_from (ManagedSurface.blank 10 10 format8888 0))
          (-5) (-5) 1000 1000) ∧
      ¬ clipInside
        (set_clip_rect (BITMAP.mk_from (ManagedSurface.blank 10 10 format8888 0))
          (-5) (-5) 1000 1000) :=
  ⟨Reachable.set_clip _ (-5) (-5) 1000 1000 (Reachable.construct _) trivial, by decide⟩

/-! ## C16: corner normalisation -/

theorem swap_min (a b : Int) : (if a > b then b else a) = min a b := by
  rcases le_or_lt a b with h | h
  · rw [if_neg (not_lt.mpr h), min_eq_left h]
  · rw [if_pos h, min_eq_right (le_of_lt h)]

theorem swap_max (a b : Int) : (if a > b then a else b) = max a b := by
  rcases le_or_lt a b with h | h
  · rw [if_neg (not_lt.mpr h), max_eq_right h]
  · rw [if_pos h, max_eq_left (le_of_lt h)]

/-- C16: `rect` and `rectfill` hand the surface the rectangle
`(min(x1,x2), min(y1,y2), max(x1,x2), max(y1,y2))`, whatever `frameRect` and
`fillRect` do with it, so the four orderings of the two corners give the same
result. -/
theorem rect_corners_normalised (frameRect fillRect : ManagedSurface → Rect → Int → ManagedSurface)
    (bmp : BITMAP) (x1 y1 x2 y2 color : Int) :
    rect frameRect bmp x1 y1 x2 y2 color
        = bmp.withOwner (frameRect bmp.owner ⟨min x1 x2, min y1 y2, max x1 x2, max y1 y2⟩ color) ∧
      rectfill fillRect bmp x1 y1 x2 y2 color
        = bmp.withOwner (fillRect bmp.owner ⟨min x1 x2, min y1 y2, max x1 x2, max y1 y2⟩ color) ∧
      rect frameRect bmp x2 y1 x1 y2 color = rect frameRect bmp x1 y1 x2 y2 color ∧
      rect frameRect bmp x1 y2 x2 y1 color = rect frameRect bmp x1 y1 x2 y2 color ∧
      rect frameRect bmp x2 y2 x1 y1 color = rect frameRect bmp x1 y1 x2 y2 color ∧
      rectfill fillRect bmp x2 y1 x1 y2 color = rectfill fillRect bmp x1 y1 x2 y2 color ∧
      rectfill fillRect bmp x1 y2 x2 y1 color = rectfill fillRect bmp x1 y1 x2 y2 color ∧
      rectfill fillRect bmp x2 y2 x1 y1 color = rectfill fillRect bmp x1 y1 x2 y2 color := by
  have hr : ∀ a b c d : Int, rect frameRect bmp a b c d color
      = bmp.withOwner (frameRect bmp.owner ⟨min a c, min b d, max a c, max b d⟩ color) := by
    intro a b c d
    unfold rect
    rw [swap_min, swap_min, swap_max, swap_max]
  have hf : ∀ a b c d : Int, rectfill fillRect bmp a b c d color
      = bmp.withOwner (fillRect bmp.owner ⟨min a c, min b d, max a c, max b d⟩ color) := by
    intro a b c d
    unfold rectfill
    rw [swap_min, swap_min, swap_max, swap_max]
  refine ⟨hr _ _ _ _, hf _ _ _ _, ?_, ?_, ?_, ?_, ?_, ?_⟩ <;>
    simp only [hr, hf, min_comm x2 x1, max_comm x2 x1, min_comm y2 y1, max_comm y2 y1]

/-! ## C17: unimplemented sprite operations -/

/-- C17: `draw_sprite_v_flip`, `draw_sprite_vh_flip`, `rotate_sprite` and
`pivot_sprite` fail with their `error("TODO: ...")` for every input; no bitmap
results, so nothing is drawn. -/
theorem unimplemented_sprite_ops_fail (bmp sprite : BITMAP) (x y cx cy angle : Int) :
    draw_sprite_v_flip bmp sprite x y = .error "TODO: draw_sprite_v_flip" ∧
      draw_sprite_vh_flip bmp sprite x y = .error "TODO: draw_sprite_vh_flip" ∧
      rotate_sprite bmp sprite x y angle = .error "TODO: rotate_sprite" ∧
      pivot_sprite bmp sprite x y cx cy angle = .error "TODO: pivot_sprite" ∧
      (draw_sprite_v_flip bmp sprite x y).toOption = none ∧
      (draw_sprite_vh_flip bmp sprite x y).toOption = none ∧
      (rotate_sprite bmp sprite x y angle).toOption = none ∧
      (pivot_sprite bmp sprite x y cx cy angle).toOption = none :=
  ⟨rfl, rfl, rfl, rfl, rfl, rfl, rfl, rfl⟩

/-! ## C18: the midpoint rule as the specification states it -/

theorem refNext_toRef (st : CircleState) : refNext st.toRef = (circleNext st).toRef := by
  unfold refNext circleNext CircleState.toRef
  dsimp only
  split <;> rfl

theorem refSpans_covers (x y : Int) (st : CircleState) (px py : Int) :
    (∃ s ∈ refSpans x y st.toRef, spanCovers s px py) ↔ stepCovers x y st px py := by
  unfold refSpans stepCovers spanCovers CircleState.toRef
  dsimp only
  by_cases h1 : st.cx = 0 <;> by_cases h2 : 0 ≤ st.df <;> by_cases h3 : st.cy = 0 <;>
    simp [h1, h2, h3] <;> omega

/-- From a state with `cx <= cy` the `do ... while` loop of the code and the
reference loop cover the same pixels, at equal fuel. -/
theorem loopCovers_iff_ref (x y px py : Int) :
    ∀ (fuel : Nat) (st : CircleState), st.cx ≤ st.cy →
      (loopCovers x y fuel st px py ↔ ∃ s ∈ refLoop x y fuel st.toRef, spanCovers s px py) := by
  intro fuel
  induction fuel with
  | zero => intro st _; simp [loopCovers, refLoop]
  | succ n ih =>
    intro st hle
    have hle' : st.toRef.cx ≤ st.toRef.cy := hle
    unfold loopCovers refLoop
    rw [if_pos hle', refNext_toRef, ← refSpans_covers]
    by_cases hc : (circleNext st).cx ≤ (circleNext st).cy
    · rw [ih _ hc]
      simp only [List.mem_append, hc, true_and]
      constructor
      · rintro (⟨s, hs, h⟩ | ⟨s, hs, h⟩)
        · exact ⟨s, Or.inl hs, h⟩
        · exact ⟨s, Or.inr hs, h⟩
      · rintro ⟨s, hs | hs, h⟩
        · exact Or.inl ⟨s, hs, h⟩
        · exact Or.inr ⟨s, hs, h⟩
    · have hnil : refLoop x y n (circleNext st).toRef = [] := by
        cases n with
        | zero => rfl
        | succ m =>
          unfold refLoop
          rw [if_neg]
          exact hc
      rw [hnil, List.append_nil]
      simp [hc]

theorem refNext_cx (st : RefState) : (refNext st).cx = st.cx + 1 := by
  unfold refNext; split <;> rfl

theorem refNext_cy_le (st : RefState) : (refNext st).cy ≤ st.cy := by
  unfold refNext; split <;> simp

/-- The fuel of the reference loop is only a bound: once it exceeds `cy - cx`,
more fuel gives the same spans. -/
theorem refLoop_fuel (x y : Int) (extra : Nat) :
    ∀ (fuel : Nat) (st : RefState), st.cy - st.cx < fuel →
      refLoop x y (fuel + extra) st = refLoop x y fuel st := by
  intro fuel
  induction fuel with
  | zero =>
    intro st h
    cases extra with
    | zero => rfl
    | succ e =>
      rw [Nat.zero_add]
      unfold refLoop
      rw [if_neg (by simp at h; omega)]
  | succ n ih =>
    intro st h
    rw [Nat.add_right_comm]
    unfold refLoop
    split
    · rw [ih]
      have h1 := refNext_cx st
      have h2 := refNext_cy_le st
      push_cast at h
      omega
    · rfl

/-- C18: for every centre `(x, y)` and radius `r >= 0` the set of pixels
`circlefill` fills is the set the reference procedure of the specification
fills; `circlefill` returns the surface painted on that set, and the reference
loop has ended by itself within the fuel `r + 1`. -/
theorem circlefill_refines_reference (bmp : BITMAP) (x y r color : Int) (hr : 0 ≤ r) :
    (∀ px py, circleFilled x y r px py ↔ refFilled x y r px py) ∧
      (∃ out, bmp.circlefill x y r color = some out ∧
        Painted color bmp.owner out.owner (refFilled x y r)) ∧
      ∀ extra, refLoop x y (r.toNat + 1 + extra) (refInit r)
        = refLoop x y (r.toNat + 1) (refInit r) := by
  have hset : ∀ px py, circleFilled x y r px py ↔ refFilled x y r px py := by
    intro px py
    unfold circleFilled refFilled
    exact loopCovers_iff_ref x y px py _ (circleInit r) (by simp only [circleInit]; exact hr)
  refine ⟨hset, ?_, ?_⟩
  · obtain ⟨out, ho, hp⟩ := circlefill_painted bmp x y r color
    exact ⟨out, ho, painted_congr _ _ _ _ _ hset hp⟩
  · intro extra
    apply refLoop_fuel
    simp only [refInit]
    push_cast
    omega

/-- C18 witness: centre `(5, 5)`, radius 3 on a 10x10 bitmap. -/
theorem circlefill_refines_reference_witness :
    (∀ px py, circleFilled 5 5 3 px py ↔ refFilled 5 5 3 px py) ∧
      (∃ out, (BITMAP.mk_from (ManagedSurface.blank 10 10 format8888 7)).circlefill 5 5 3 255
          = some out ∧
        Painted 255 (BITMAP.mk_from (ManagedSurface.blank 10 10 format8888 7)).owner out.owner
          (refFilled 5 5 3)) ∧
      ∀ extra, refLoop 5 5 ((3 : Int).toNat + 1 + extra) (refInit 3)
        = refLoop 5 5 ((3 : Int).toNat + 1) (refInit 3) :=
  circlefill_refines_reference (BITMAP.mk_from (ManagedSurface.blank 10 10 format8888 7)) 5 5 3
    255 (by decide)

/-! ## C19: termination of the filled circle -/

theorem circleNext_measure (st : CircleState) :
    (circleNext st).cy - (circleNext st).cx < st.cy - st.cx := by
  have h1 := circleNext_cx st
  have h2 := circleNext_cy_le st
  omega

/-- The loop of `circlefill` returns exactly when the count of its passes
does: the two recursions take the same branches. -/
theorem circlefillLoop_isSome (x y color : Int) :
    ∀ (fuel : Nat) (st : CircleState) (surf : ManagedSurface),
      (circlefillLoop x y color fuel st surf).isSome = (circlePasses fuel st).isSome := by
  intro fuel
  induction fuel with
  | zero => intro st surf; rfl
  | succ n ih =>
    intro st surf
    unfold circlefillLoop circlePasses
    split
    · rw [ih, Option.isSome_map']
    · rfl

/-- With fuel beyond `cy - cx` the body runs a number of times that does not
depend on the fuel, at least once and at most `max(cy - cx, 0) + 1` times. -/
theorem circlePasses_bound :
    ∀ (fuel : Nat) (st : CircleState), 0 < fuel → st.cy - st.cx < fuel →
      ∃ n : Nat, 1 ≤ n ∧ (n : Int) ≤ max (st.cy - st.cx) 0 + 1 ∧
        ∀ extra, circlePasses (fuel + extra) st = some n := by
  intro fuel
  induction fuel with
  | zero => intro st h; exact absurd h (by decide)
  | succ k ih =>
    intro st _ hm
    have hlt := circleNext_measure st
    push_cast at hm
    by_cases hc : (circleNext st).cx ≤ (circleNext st).cy
    · obtain ⟨n, hn1, hn2, hn3⟩ := ih (circleNext st) (by omega) (by omega)
      refine ⟨n + 1, by omega, ?_, ?_⟩
      · push_cast
        have e1 : max ((circleNext st).cy - (circleNext st).cx) 0
            = (circleNext st).cy - (circleNext st).cx := max_eq_left (by omega)
        have e2 : max (st.cy - st.cx) 0 = st.cy - st.cx := max_eq_left (by omega)
        rw [e1] at hn2
        rw [e2]
        omega
      · intro extra
        rw [Nat.add_right_comm]
        unfold circlePasses
        rw [if_pos hc, hn3 extra]
        rfl
    · refine ⟨1, le_refl _, ?_, ?_⟩
      · have := le_max_right (st.cy - st.cx) 0
        push_cast
        omega
      · intro extra
        rw [Nat.add_right_comm]
        unfold circlePasses
        rw [if_neg hc]

/-- C19: over unbounded integers `circlefill` returns for every radius,
negative ones included; `cy - cx` strictly decreases with every pass through the
body; and the body runs `n` times with `1 <= n <= max(radius, 0) + 1`, the same
`n` for every fuel from `max(radius, 0) + 1` on, the loop returning exactly
when the count does. -/
theorem circlefill_terminates (bmp : BITMAP) (x y radius color : Int) :
    (∃ out, bmp.circlefill x y radius color = some out) ∧
      (∀ st : CircleState, (circleNext st).cy - (circleNext st).cx < st.cy - st.cx) ∧
      (∃ n : Nat, 1 ≤ n ∧ n ≤ radius.toNat + 1 ∧
        ∀ extra, circlePasses (radius.toNat + 1 + extra) (circleInit radius) = some n) ∧
      ∀ fuel surf, (circlefillLoop x y color fuel (circleInit radius) surf).isSome
        = (circlePasses fuel (circleInit radius)).isSome := by
  refine ⟨?_, circleNext_measure, ?_, fun fuel surf => circlefillLoop_isSome x y color fuel _ surf⟩
  · obtain ⟨out, ho, _⟩ := circlefill_painted bmp x y radius color
    exact ⟨out, ho⟩
  · obtain ⟨n, hn1, hn2, hn3⟩ := circlePasses_bound (radius.toNat + 1) (circleInit radius)
      (Nat.succ_pos _) (by simp only [circleInit]; push_cast; omega)
    refine ⟨n, hn1, ?_, hn3⟩
    simp only [circleInit] at hn2
    rcases le_or_lt 0 radius with h | h
    · rw [sub_zero, max_eq_left h] at hn2
      omega
    · rw [sub_zero, max_eq_right (le_of_lt h)] at hn2
      omega

/-! ## C20: the sentinel on 1- and 2-byte surfaces -/

/-- C20: on a surface of 1 or 2 bytes per pixel `getpixel` (the free function
and the member) returns `-1` if and only if `(x, y)` is out of bounds: an
in-bounds read returns a value in `0..255` (1 byte) or `0..65535` (2 bytes). -/
theorem sentinel_unambiguous (bmp : BITMAP) (x y : Int)
    (hk : bmp.owner.format.bytesPerPixel = 1 ∨ bmp.owner.format.bytesPerPixel = 2) :
    (getpixel bmp x y = .ok (-1) ↔ (x < 0 ∨ y < 0 ∨ x ≥ bmp.owner.w ∨ y ≥ bmp.owner.h)) ∧
      (bmp.getpixel x y = -1 ↔ (x < 0 ∨ y < 0 ∨ x ≥ bmp.owner.w ∨ y ≥ bmp.owner.h)) ∧
      (¬ (x < 0 ∨ y < 0 ∨ x ≥ bmp.owner.w ∨ y ≥ bmp.owner.h) →
        ∃ v : Int, getpixel bmp x y = .ok v ∧ bmp.getpixel x y = v ∧ 0 ≤ v ∧
          v ≤ (if bmp.owner.format.bytesPerPixel = 1 then 255 else 65535)) := by
  by_cases hout : x < 0 ∨ y < 0 ∨ x ≥ bmp.owner.w ∨ y ≥ bmp.owner.h
  · refine ⟨?_, ?_, fun h => absurd hout h⟩
    · refine ⟨fun _ => hout, fun _ => ?_⟩
      unfold getpixel
      rw [if_pos hout]
    · refine ⟨fun _ => hout, fun _ => ?_⟩
      unfold BITMAP.getpixel BITMAP.w BITMAP.h
      rw [if_pos hout]
  · have key : ∃ v : Int, getpixel bmp x y = .ok v ∧ bmp.getpixel x y = v ∧ 0 ≤ v ∧
        v ≤ (if bmp.owner.format.bytesPerPixel = 1 then 255 else 65535) := by
      rcases hk with h | h
      · refine ⟨(bmp.owner.load 1 x y : Int), ?_, ?_, ?_, ?_⟩
        · simp only [getpixel, if_neg hout, h]
        · simp only [BITMAP.getpixel, BITMAP.w, BITMAP.h, BITMAP.format, if_neg hout, h, if_true]
        · exact Int.ofNat_nonneg _
        · rw [if_pos h]
          unfold ManagedSurface.load
          omega
      · refine ⟨(bmp.owner.load 2 x y : Int), ?_, ?_, ?_, ?_⟩
        · simp only [getpixel, if_neg hout, h]
        · simp [BITMAP.getpixel, BITMAP.w, BITMAP.h, BITMAP.format, if_neg hout, h]
        · exact Int.ofNat_nonneg _
        · rw [if_neg (by omega)]
          unfold ManagedSurface.load
          omega
    obtain ⟨v, hv1, hv2, hv3, hv4⟩ := key
    refine ⟨?_, ?_, fun _ => ⟨v, hv1, hv2, hv3, hv4⟩⟩
    · rw [hv1]
      constructor
      · intro h
        injection h with h
        omega
      · intro h; exact absurd h hout
    · rw [hv2]
      constructor
      · intro h; omega
      · intro h; exact absurd h hout

/-- C20 witness: a 3x2 surface of 2 bytes per pixel, pixel `(2, 1)`. -/
theorem sentinel_unambiguous_witness :
    (getpixel (BITMAP.mk_from (ManagedSurface.blank 3 2 format565 65535)) 2 1 = .ok (-1) ↔
        ((2 : Int) < 0 ∨ (1 : Int) < 0 ∨
          (2 : Int) ≥ (BITMAP.mk_from (ManagedSurface.blank 3 2 format565 65535)).owner.w ∨
          (1 : Int) ≥ (BITMAP.mk_from (ManagedSurface.blank 3 2 format565 65535)).owner.h)) ∧
      ((BITMAP.mk_from (ManagedSurface.blank 3 2 format565 65535)).getpixel 2 1 = -1 ↔
        ((2 : Int) < 0 ∨ (1 : Int) < 0 ∨
          (2 : Int) ≥ (BITMAP.mk_from (ManagedSurface.blank 3 2 format565 65535)).owner.w ∨
          (1 : Int) ≥ (BITMAP.mk_from (ManagedSurface.blank 3 2 format565 65535)).owner.h)) ∧
      (¬ ((2 : Int) < 0 ∨ (1 : Int) < 0 ∨
          (2 : Int) ≥ (BITMAP.mk_from (ManagedSurface.blank 3 2 format565 65535)).owner.w ∨
          (1 : Int) ≥ (BITMAP.mk_from (ManagedSurface.blank 3 2 format565 65535)).owner.h) →
        ∃ v : Int,
          getpixel (BITMAP.mk_from (ManagedSurface.blank 3 2 format565 65535)) 2 1 = .ok v ∧
          (BITMAP.mk_from (ManagedSurface.blank 3 2 format565 65535)).getpixel 2 1 = v ∧ 0 ≤ v ∧
          v ≤ (if (BITMAP.mk_from
                (ManagedSurface.blank 3 2 format565 65535)).owner.format.bytesPerPixel = 1
              then 255 else 65535)) :=
  sentinel_unambiguous (BITMAP.mk_from (ManagedSurface.blank 3 2 format565 65535)) 2 1
    (by decide)

/-! ## C3: masked blit -/

/-- An opaque source pixel inside the rectangle, the source and the destination
is copied by `masked_blit`. -/
theorem masked_blit_copies_opaque (src dest : BITMAP)
    (src_x src_y dst_x dst_y width height px py : Int)
    (hin : dest.owner.inside px py)
    (hrect : dst_x ≤ px ∧ px < dst_x + width ∧ dst_y ≤ py ∧ py < dst_y + height)
    (hsrc : src.owner.inside (px - dst_x + src_x) (py - dst_y + src_y))
    (hop : src.owner.pix (px - dst_x + src_x) (py - dst_y + src_y)
      ≠ TRANSPARENT_COLOR src.format) :
    (masked_blit src dest src_x src_y dst_x dst_y width height).owner.pix px py
      = src.owner.pix (px - dst_x + src_x) (py - dst_y + src_y) := by
  unfold ManagedSurface.inside at hin hsrc
  unfold masked_blit ManagedSurface.blitFrom BITMAP.withOwner
  dsimp only
  rw [if_pos]
  exact ⟨by omega, hop⟩

end AGS3

/-! # Oo-Topos room classification: C21 -/

namespace Glk.Comprehend

theorem flag_dark_iff (n : Nat) : n &&& OO_ROOM_FLAG_DARK ≠ 0 ↔ n.testBit 1 = true := by
  have h := Nat.and_two_pow n 1
  simp only [pow_one] at h
  unfold OO_ROOM_FLAG_DARK
  rw [h]
  cases n.testBit 1 <;> simp

/-- The result of `oo_room_is_special` by cases on the two conditions, with the
conditions in the words of the claim. -/
theorem oo_room_is_special_cases (n d b : Int) (game : comprehend_game) (room_index : Nat)
    (p : Option Nat) :
    oo_room_is_special n d b game room_index p =
      if roomDark game room_index then ⟨d, p.map (fun _ => 0xb3), game⟩
      else if roomTooBright game room_index then ⟨b, p.map (fun _ => 0x1c), game⟩
      else ⟨n, p, game⟩ := by
  have hd : ((game.info.rooms room_index).flags &&& OO_ROOM_FLAG_DARK ≠ 0 ∧
      game.info.flags OO_FLAG_FLASHLIGHT_ON = false) ↔ roomDark game room_index := by
    unfold roomDark
    rw [flag_dark_iff]
    rfl
  have hb : (room_index = OO_BRIGHT_ROOM ∧ game.info.flags OO_FLAG_WEARING_GOGGLES = false) ↔
      roomTooBright game room_index := Iff.rfl
  unfold oo_room_is_special
  by_cases h1 : roomDark game room_index
  · rw [if_pos (hd.mpr h1), if_pos h1]
  · rw [if_neg (fun h => h1 (hd.mp h)), if_neg h1]
    by_cases h2 : roomTooBright game room_index
    · rw [if_pos (hb.mpr h2), if_pos h2]
    · rw [if_neg (fun h => h2 (hb.mp h)), if_neg h2]

/-- C21: with pairwise distinct constants `ROOM_IS_NORMAL`, `ROOM_IS_DARK` and
`ROOM_IS_TOO_BRIGHT`, `oo_room_is_special` returns `ROOM_IS_DARK` exactly when
the room has flag bit `0x02` and game flag `0x27` is clear, and then the
description string (when the pointer is not null) is `0xb3`; otherwise it
returns `ROOM_IS_TOO_BRIGHT` exactly when the room index is `0x19` and game flag
`0x1b` is clear, and then the description string is `0x1c`; otherwise it returns
`ROOM_IS_NORMAL` and the description string is untouched; darkness wins when
both conditions hold; the game state is the one passed in. -/
theorem oo_room_is_special_spec (ROOM_IS_NORMAL ROOM_IS_DARK ROOM_IS_TOO_BRIGHT : Int)
    (game : comprehend_game) (room_index : Nat) (room_desc_string : Option Nat)
    (hnd : ROOM_IS_NORMAL ≠ ROOM_IS_DARK) (hnb : ROOM_IS_NORMAL ≠ ROOM_IS_TOO_BRIGHT)
    (hdb : ROOM_IS_DARK ≠ ROOM_IS_TOO_BRIGHT) :
    ((oo_room_is_special ROOM_IS_NORMAL ROOM_IS_DARK ROOM_IS_TOO_BRIGHT game room_index
        room_desc_string).ret = ROOM_IS_DARK ↔ roomDark game room_index) ∧
      ((oo_room_is_special ROOM_IS_NORMAL ROOM_IS_DARK ROOM_IS_TOO_BRIGHT game room_index
        room_desc_string).ret = ROOM_IS_TOO_BRIGHT ↔
          (¬ roomDark game room_index ∧ roomTooBright game room_index)) ∧
      ((oo_room_is_special ROOM_IS_NORMAL ROOM_IS_DARK ROOM_IS_TOO_BRIGHT game room_index
        room_desc_string).ret = ROOM_IS_NORMAL ↔
          (¬ roomDark game room_index ∧ ¬ roomTooBright game room_index)) ∧
      (oo_room_is_special ROOM_IS_NORMAL ROOM_IS_DARK ROOM_IS_TOO_BRIGHT game room_index
        room_desc_string).room_desc_string =
          (if roomDark game room_index then room_desc_string.map (fun _ => 0xb3)
            else if roomTooBright game room_index then room_desc_string.map (fun _ => 0x1c)
            else room_desc_string) ∧
      (oo_room_is_special ROOM_IS_NORMAL ROOM_IS_DARK ROOM_IS_TOO_BRIGHT game room_index
        room_desc_string).game = game := by
  by_cases h1 : roomDark game room_index
  · have hv := oo_room_is_special_cases ROOM_IS_NORMAL ROOM_IS_DARK ROOM_IS_TOO_BRIGHT game
      room_index room_desc_string
    rw [if_pos h1] at hv
    rw [hv, if_pos h1]
    exact ⟨⟨fun _ => h1, fun _ => rfl⟩, ⟨fun h => absurd h hdb, fun h => absurd h1 h.1⟩,
      ⟨fun h => absurd h.symm hnd, fun h => absurd h1 h.1⟩, rfl, rfl⟩
  · by_cases h2 : roomTooBright game room_index
    · have hv := oo_room_is_special_cases ROOM_IS_NORMAL ROOM_IS_DARK ROOM_IS_TOO_BRIGHT game
        room_index room_desc_string
      rw [if_neg h1, if_pos h2] at hv
      rw [hv, if_neg h1, if_pos h2]
      exact ⟨⟨fun h => absurd h.symm hdb, fun h => absurd h h1⟩,
        ⟨fun _ => ⟨h1, h2⟩, fun _ => rfl⟩,
        ⟨fun h => absurd h.symm hnb, fun h => absurd h2 h.2⟩, rfl, rfl⟩
    · have hv := oo_room_is_special_cases ROOM_IS_NORMAL ROOM_IS_DARK ROOM_IS_TOO_BRIGHT game
        room_index room_desc_string
      rw [if_neg h1, if_neg h2] at hv
      rw [hv, if_neg h1, if_neg h2]
      exact ⟨⟨fun h => absurd h hnd, fun h => absurd h h1⟩,
        ⟨fun h => absurd h hnb, fun h => absurd h.2 h2⟩, ⟨fun _ => ⟨h1, h2⟩, fun _ => rfl⟩,
        rfl, rfl⟩

/-- C21 witness: constants 0, 1, 2, room `0x19` of a game in which every room
is dark and no flag is set (both conditions hold, darkness wins), the pointer
pointing at 7. -/
theorem oo_room_is_special_spec_witness :
    ((oo_room_is_special 0 1 2 darkGame 0x19 (some 7)).ret = 1 ↔ roomDark darkGame 0x19) ∧
      ((oo_room_is_special 0 1 2 darkGame 0x19 (some 7)).ret = 2 ↔
          (¬ roomDark darkGame 0x19 ∧ roomTooBright darkGame 0x19)) ∧
      ((oo_room_is_special 0 1 2 darkGame 0x19 (some 7)).ret = 0 ↔
          (¬ roomDark darkGame 0x19 ∧ ¬ roomTooBright darkGame 0x19)) ∧
      (oo_room_is_special 0 1 2 darkGame 0x19 (some 7)).room_desc_string =
          (if roomDark darkGame 0x19 then (some 7).map (fun _ => 0xb3)
            else if roomTooBright darkGame 0x19 then (some 7).map (fun _ => 0x1c)
            else some 7) ∧
      (oo_room_is_special 0 1 2 darkGame 0x19 (some 7)).game = darkGame :=
  oo_room_is_special_spec 0 1 2 darkGame 0x19 (some 7) (by decide) (by decide) (by decide)

end Glk.Comprehend
